import Mathlib

/-!
Verification of the paged storage engine of `rustlite` (src/mem_storage.rs),
as a shallow embedding in Lean.  Bytes are modelled as `Nat` (values < 256 in
all states the program can build), buffers as `List Nat`, the page cache as a
function `Fin 100 → Option (List Nat)` mirroring the Rust array
`[Option<Box<[u8; 4096]>>; 100]`, and fatal process terminations
(`std::process::exit` and Rust index-out-of-bounds aborts) as an explicit
error type `Fatal`.
-/

namespace RustLite

/-! ### Constants (src/mem_storage.rs lines 15-22, 74-77) -/

def ID_SIZE : Nat := 4
def USERNAME_SIZE : Nat := 32
def EMAIL_SIZE : Nat := 255
def ID_OFFSET : Nat := 0
def USERNAME_OFFSET : Nat := ID_OFFSET + ID_SIZE
def EMAIL_OFFSET : Nat := USERNAME_OFFSET + USERNAME_SIZE
def ROW_SIZE : Nat := ID_SIZE + USERNAME_SIZE + EMAIL_SIZE
def PAGE_SIZE : Nat := 4096
def TABLE_MAX_PAGES : Nat := 100
def ROWS_PER_PAGE : Nat := PAGE_SIZE / ROW_SIZE
def TABLE_MAX_ROWS : Nat := ROWS_PER_PAGE * TABLE_MAX_PAGES

/-! ### Rows.  `username`/`email` are the raw UTF-8 bytes of the Rust `String`s. -/

structure Row where
  id : Nat
  username : List Nat
  email : List Nat
  deriving DecidableEq, Repr

/-- The Rust type invariant of `Row`: `id` is a `u32` and the two text fields
are `String`s, i.e. valid UTF-8 byte sequences of genuine bytes. -/
def ValidStr (l : List Nat) : Prop := (∀ b ∈ l, b < 256)

/-- `u32::to_le_bytes`. -/
def leBytes4 (n : Nat) : List Nat :=
  [n % 256, n / 256 % 256, n / 65536 % 256, n / 16777216 % 256]

/-- `u32::from_le_bytes` on a 4-byte buffer. -/
def fromLe4 (l : List Nat) : Nat :=
  l.getD 0 0 + 256 * l.getD 1 0 + 65536 * l.getD 2 0 + 16777216 * l.getD 3 0

/-- Right-pad a byte list with zeros up to length `n` (the effect of copying
`l` into a zero-initialised `[0u8; n]`). -/
def padTo (n : Nat) (l : List Nat) : List Nat := l ++ List.replicate (n - l.length) 0

/-- The 291 bytes produced by `Row::serialize_row` for an in-capacity row. -/
def serBytes (r : Row) : List Nat :=
  leBytes4 r.id ++ padTo USERNAME_SIZE r.username ++ padTo EMAIL_SIZE r.email

/-- `Row::serialize_row` (mem_storage.rs lines 39-52).  The Rust code slices
`username_bytes[..self.username.len()]` of a `[0u8; 32]`, which panics when
the field exceeds its capacity; `none` models that panic. -/
def Row.serialize_row (r : Row) : Option (List Nat) :=
  if r.username.length ≤ USERNAME_SIZE then
    if r.email.length ≤ EMAIL_SIZE then some (serBytes r) else none
  else none

/-- `(l.drop off).take len`: the slice `l[off..off+len]`. -/
def slice (l : List Nat) (off len : Nat) : List Nat := (l.drop off).take len

/-! ### UTF-8 validation, as performed by `String::from_utf8` (RFC 3629:
continuation bytes in `0x80..=0xBF`, no overlong forms, no surrogates,
nothing above U+10FFFF). -/

/-- UTF-8 byte classification, as in `String::from_utf8` (RFC 3629): maps a
leading byte to the list of (lo, hi) ranges required of its continuation
bytes, or `none` if the byte cannot begin a sequence. -/
def utf8Class (b : Nat) : Option (List (Nat × Nat)) :=
  if b ≤ 127 then some []
  else if b < 194 then none
  else if b ≤ 223 then some [(128, 191)]
  else if b = 224 then some [(160, 191), (128, 191)]
  else if b = 237 then some [(128, 159), (128, 191)]
  else if b ≤ 239 then some [(128, 191), (128, 191)]
  else if b = 240 then some [(144, 191), (128, 191), (128, 191)]
  else if b = 244 then some [(128, 143), (128, 191), (128, 191)]
  else if b ≤ 244 then some [(128, 191), (128, 191), (128, 191)]
  else none

/-- UTF-8 validation run: `exp` is the list of ranges still expected of
continuation bytes of the current sequence. -/
def utf8Run : List Nat → List (Nat × Nat) → Bool
  | [], [] => true
  | [], _ :: _ => false
  | b :: bs, [] =>
      match utf8Class b with
      | some exp => utf8Run bs exp
      | none => false
  | b :: bs, (lo, hi) :: exp =>
      if lo ≤ b ∧ b ≤ hi then utf8Run bs exp else false

/-- Validity of a byte sequence as UTF-8 (`String::from_utf8` succeeding). -/
def utf8Valid (l : List Nat) : Bool := utf8Run l []

/-- `Row::deserialize_row` (mem_storage.rs lines 54-71). -/
def Row.deserialize_row (buffer : List Nat) : Option Row :=
  if buffer.length < ID_SIZE + USERNAME_SIZE + EMAIL_SIZE then none
  else
    let id := fromLe4 (slice buffer ID_OFFSET ID_SIZE)
    let username_bytes := slice buffer USERNAME_OFFSET USERNAME_SIZE
    let email_bytes := slice buffer EMAIL_OFFSET EMAIL_SIZE
    if utf8Valid username_bytes then
      if utf8Valid email_bytes then
        some { id := id, username := username_bytes, email := email_bytes }
      else none
    else none

/-! ### Pager, Table, Cursor and the executor (mem_storage.rs lines 74-306) -/

/-- Fatal process terminations: `exit…` are the controlled
`std::process::exit(0)` calls with their messages; `panicIndex` is Rust's
index-out-of-bounds abort on the 100-slot `pages` array; `panicSer` is the
slicing/`copy_from_slice` abort inside `serialize_row` on an over-long
field. -/
inductive Fatal where
  | exitPageBound
  | exitFlushNull
  | panicIndex
  | panicSer
  deriving DecidableEq, Repr

/-- The pager (mem_storage.rs lines 79-83): current backing-file contents,
the `file_length` field captured at open time, and the 100-slot page cache
`[Option<Box<[u8; 4096]>>; 100]`. -/
structure Pager where
  file : List Nat
  file_length : Nat
  pages : Fin TABLE_MAX_PAGES → Option (List Nat)

structure Table where
  pager : Pager
  num_rows : Nat

inductive ExecuteResult where
  | Success
  | TableFull
  deriving DecidableEq, Repr

/-- `Pager::pager_open` on a file whose current contents are `file`. -/
def Pager.pager_open (file : List Nat) : Pager :=
  { file := file, file_length := file.length, pages := fun _ => none }

/-- The zero-filled 4096-byte buffer after `read_exact` from `file` at offset
`page_num * PAGE_SIZE`: the available bytes land at the front of the buffer
and the rest keeps its zeros (`read_exact` fills what it can; its
`UnexpectedEof` error is discarded by the caller with `let _ = …`). -/
def loadPage (file : List Nat) (page_num : Nat) : List Nat :=
  slice file (page_num * PAGE_SIZE) PAGE_SIZE ++
    List.replicate (PAGE_SIZE - (slice file (page_num * PAGE_SIZE) PAGE_SIZE).length) 0

/-- The buffer a first access to `page_num` ends up with (mem_storage.rs
lines 128-143): a zero page, read over from the file iff `page_num` is at
most `num_pages = file_length / PAGE_SIZE`, rounded up for a partial final
page.  (The comparison is the code's inclusive `page_num <= num_pages`; a
read at or past the end of the file transfers no bytes and leaves the
buffer zero.) -/
def Pager.pageLoad (p : Pager) (page_num : Nat) : List Nat :=
  let num_pages :=
    p.file_length / PAGE_SIZE + (if p.file_length % PAGE_SIZE ≠ 0 then 1 else 0)
  if page_num ≤ num_pages then loadPage p.file page_num
  else List.replicate PAGE_SIZE 0

/-- `Pager::get_page_mut` (mem_storage.rs lines 117-147).  The Rust code
first exits when `page_num > TABLE_MAX_PAGES`; it then indexes
`self.pages[page_num]`, which on the 100-element array aborts with an index
panic when `page_num = 100`. -/
def Pager.get_page_mut (p : Pager) (page_num : Nat) :
    Except Fatal (List Nat × Pager) :=
  if page_num > TABLE_MAX_PAGES then .error .exitPageBound
  else if h : page_num < TABLE_MAX_PAGES then
    match p.pages ⟨page_num, h⟩ with
    | some pg => .ok (pg, p)
    | none =>
        let pg := p.pageLoad page_num
        .ok (pg, { p with pages := Function.update p.pages ⟨page_num, h⟩ (some pg) })
  else .error .panicIndex

/-- `seek(SeekFrom::Start(off))` followed by `write_all(data)`: overwrite
`data.length` bytes at offset `off`, zero-filling any gap beyond the old end
of the file. -/
def writeFileAt (f : List Nat) (off : Nat) (data : List Nat) : List Nat :=
  (f.take off ++ List.replicate (off - f.length) 0) ++ data ++ f.drop (off + data.length)

/-- The bounds-checked array read `pages[i]` (Rust panics when `i ≥ 100`). -/
def Pager.pageAt (p : Pager) (i : Nat) : Except Fatal (Option (List Nat)) :=
  if h : i < TABLE_MAX_PAGES then .ok (p.pages ⟨i, h⟩) else .error .panicIndex

/-- `pages[i] = None` (only reached on indices already read, hence < 100). -/
def Pager.evict (p : Pager) (i : Nat) : Pager :=
  if h : i < TABLE_MAX_PAGES then
    { p with pages := Function.update p.pages ⟨i, h⟩ none }
  else p

/-- `Pager::flush` (mem_storage.rs lines 149-164): exit on an unloaded slot,
otherwise write the first `size` bytes of the page at offset
`page_num * PAGE_SIZE` of the file. -/
def Pager.flush (p : Pager) (page_num size : Nat) : Except Fatal Pager :=
  match p.pageAt page_num with
  | .error e => .error e
  | .ok none => .error .exitFlushNull
  | .ok (some pg) =>
      .ok { p with file := writeFileAt p.file (page_num * PAGE_SIZE) (pg.take size) }

/-- `Table::db_open` (mem_storage.rs lines 217-225). -/
def Table.db_open (file : List Nat) : Table :=
  let pager := Pager.pager_open file
  { pager := pager, num_rows := pager.file_length / ROW_SIZE }

/-- `Table::get_page_mut` (mem_storage.rs lines 259-261), threading the
mutated pager. -/
def Table.get_page_mut (t : Table) (page_num : Nat) :
    Except Fatal (List Nat × Table) :=
  match t.pager.get_page_mut page_num with
  | .error e => .error e
  | .ok (pg, p') => .ok (pg, { t with pager := p' })

/-- Write-back of a mutation made through the `&mut [u8; 4096]` handle that
`get_page_mut` returns: the mutated buffer replaces the cached one.  Only
reached for pages `get_page_mut` returned, hence `page_num < 100`. -/
def Table.setPage (t : Table) (page_num : Nat) (pg : List Nat) : Table :=
  if h : page_num < TABLE_MAX_PAGES then
    { t with pager := { t.pager with
        pages := Function.update t.pager.pages ⟨page_num, h⟩ (some pg) } }
  else t

/-- `buf[off..off+data.len()].copy_from_slice(data)` (in-range in every call
site: `off + 291 ≤ 4074 < 4096`). -/
def listWrite (l : List Nat) (off : Nat) (data : List Nat) : List Nat :=
  l.take off ++ data ++ l.drop (off + data.length)

/-- `execute_insert` (mem_storage.rs lines 264-284).  `Cursor::from_end`
yields `row_num = num_rows`; the page write happens through the cursor's
`get_value`. -/
def execute_insert (t : Table) (row : Row) : Except Fatal (ExecuteResult × Table) :=
  if t.num_rows ≥ TABLE_MAX_ROWS then .ok (.TableFull, t)
  else
    match row.serialize_row with
    | none => .error .panicSer
    | some serialized_data =>
        let row_num := t.num_rows
        let row_offset := (row_num % ROWS_PER_PAGE) * ROW_SIZE
        match t.get_page_mut (row_num / ROWS_PER_PAGE) with
        | .error e => .error e
        | .ok (page, t1) =>
            let page1 := listWrite page row_offset serialized_data
            let t2 := t1.setPage (row_num / ROWS_PER_PAGE) page1
            .ok (.Success, { t2 with num_rows := t2.num_rows + 1 })

/-- The body of `execute_select`'s while-loop, once per remaining row.  The
yielded entry is `some row` for a slot that deserializes and `none` for the
per-row notice "Error deserializing data.". -/
def selectLoop (t : Table) (row_num : Nat) :
    Nat → Except Fatal (List (Option Row) × Table)
  | 0 => .ok ([], t)
  | fuel + 1 =>
      match t.get_page_mut (row_num / ROWS_PER_PAGE) with
      | .error e => .error e
      | .ok (page, t1) =>
          let row_offset := (row_num % ROWS_PER_PAGE) * ROW_SIZE
          let row_data := slice page row_offset ROW_SIZE
          match selectLoop t1 (row_num + 1) fuel with
          | .error e => .error e
          | .ok (rows, t2) => .ok (Row.deserialize_row row_data :: rows, t2)

/-- `execute_select` (mem_storage.rs lines 286-306): `Cursor::from_start`
begins at row 0 with `end_of_table = (num_rows == 0)` and `advance` sets
`end_of_table` once `row_num ≥ num_rows`, so the loop body runs exactly once
per row index `0, 1, …, num_rows - 1`. -/
def execute_select (t : Table) :
    Except Fatal (ExecuteResult × List (Option Row) × Table) :=
  match selectLoop t 0 t.num_rows with
  | .error e => .error e
  | .ok (rows, t1) => .ok (.Success, rows, t1)

/-- First loop of `db_close` (`for i in 0..num_full_pages`): flush each
resident page in full and evict it. -/
def closeFullLoop (p : Pager) (i : Nat) : Nat → Except Fatal Pager
  | 0 => .ok p
  | count + 1 =>
      match p.pageAt i with
      | .error e => .error e
      | .ok none => closeFullLoop p (i + 1) count
      | .ok (some _) =>
          match p.flush i PAGE_SIZE with
          | .error e => .error e
          | .ok p1 => closeFullLoop (p1.evict i) (i + 1) count

/-- Last loop of `db_close` (`for i in 0..TABLE_MAX_PAGES`): drop whatever
is still resident without writing it. -/
def clearLoop (p : Pager) (i : Nat) : Nat → Pager
  | 0 => p
  | count + 1 => clearLoop (p.evict i) (i + 1) count

/-- `Table::db_close` (mem_storage.rs lines 230-257).  Note the partial-page
branch indexes `pager.pages[num_full_pages]`, which panics when
`num_full_pages = 100`. -/
def Table.db_close (t : Table) : Except Fatal Table :=
  let num_full_pages := t.num_rows / ROWS_PER_PAGE
  match closeFullLoop t.pager 0 num_full_pages with
  | .error e => .error e
  | .ok p1 =>
      let num_additional_rows := t.num_rows % ROWS_PER_PAGE
      let afterTail : Except Fatal Pager :=
        if num_additional_rows > 0 then
          match p1.pageAt num_full_pages with
          | .error e => .error e
          | .ok none => .ok p1
          | .ok (some _) =>
              match p1.flush num_full_pages (num_additional_rows * ROW_SIZE) with
              | .error e => .error e
              | .ok p2 => .ok (p2.evict num_full_pages)
        else .ok p1
      match afterTail with
      | .error e => .error e
      | .ok p2 => .ok { t with pager := clearLoop p2 0 TABLE_MAX_PAGES }

/-! ### Derived notions used to state the claims -/

/-- The content `get_page_mut` yields for page `page_num` of table `t`: the
cached buffer when resident, otherwise the buffer that would be loaded. -/
def Table.pageView (t : Table) (page_num : Nat) : List Nat :=
  match (if h : page_num < TABLE_MAX_PAGES then t.pager.pages ⟨page_num, h⟩ else none) with
  | some pg => pg
  | none => t.pager.pageLoad page_num

/-- The 291 bytes of row slot `row_num`, read through the row-addressing
function (`page = row / 14`, `offset = (row % 14) * 291`). -/
def Table.rowBytes (t : Table) (row_num : Nat) : List Nat :=
  slice (t.pageView (row_num / ROWS_PER_PAGE)) ((row_num % ROWS_PER_PAGE) * ROW_SIZE) ROW_SIZE

/-- Structural invariant from the Rust types: every resident page buffer is a
`[u8; 4096]`. -/
def Pager.WF (p : Pager) : Prop :=
  ∀ j : Fin TABLE_MAX_PAGES, ∀ pg, p.pages j = some pg → pg.length = PAGE_SIZE

/-- A row as the statement parser hands it to the executor: `u32` id and
in-capacity UTF-8 text fields. -/
def ValidRow (r : Row) : Prop :=
  r.id < 4294967296 ∧ r.username.length ≤ USERNAME_SIZE ∧ utf8Valid r.username = true ∧
    r.email.length ≤ EMAIL_SIZE ∧ utf8Valid r.email = true

instance (r : Row) : Decidable (ValidRow r) := by
  unfold ValidRow
  infer_instance

/-- Run `execute_insert` on each row in turn, collecting the results. -/
def insertAll (t : Table) (rows : List Row) :
    Except Fatal (List ExecuteResult × Table) :=
  match rows with
  | [] => .ok ([], t)
  | r :: rs =>
      match execute_insert t r with
      | .error e => .error e
      | .ok (res, t1) =>
          match insertAll t1 rs with
          | .error e => .error e
          | .ok (results, t2) => .ok (res :: results, t2)

/-- The full persistence pipeline of claim C1: insert into a freshly opened
empty table, close, reopen the written file, select; yields the select
output. -/
def roundTrip (rows : List Row) : Except Fatal (List (Option Row)) :=
  match insertAll (Table.db_open []) rows with
  | .error e => .error e
  | .ok (_, t1) =>
      match t1.db_close with
      | .error e => .error e
      | .ok t2 =>
          match execute_select (Table.db_open t2.pager.file) with
          | .error e => .error e
          | .ok (_, out, _) => .ok out

def isOkE {α : Type} (x : Except Fatal α) : Bool :=
  match x with
  | .ok _ => true
  | .error _ => false

/-- What select yields for a stored in-capacity row: the id, and each text
field with its zero padding (padding is not trimmed on decode). -/
def decodedRow (r : Row) : Row :=
  { id := r.id, username := padTo USERNAME_SIZE r.username,
    email := padTo EMAIL_SIZE r.email }

/-- The 14-row group of `rows` that lands on page `j`. -/
def chunk (rows : List Row) (j : Nat) : List Row :=
  (rows.drop (ROWS_PER_PAGE * j)).take ROWS_PER_PAGE

/-- A page buffer holding the serializations of `rows` (at most 14) packed
from offset 0, zeros beyond. -/
def pageOfRows (rows : List Row) : List Nat :=
  (rows.map serBytes).flatten ++ List.replicate (PAGE_SIZE - ROW_SIZE * rows.length) 0

def freshPages (rows : List Row) : Fin TABLE_MAX_PAGES → Option (List Nat) :=
  fun j =>
    if ROWS_PER_PAGE * j.val < rows.length then some (pageOfRows (chunk rows j.val))
    else none

/-- The table state after inserting `rows` into a freshly opened empty
table. -/
def freshState (rows : List Row) : Table :=
  { pager := { file := [], file_length := 0, pages := freshPages rows },
    num_rows := rows.length }

/-- The backing-file contents `db_close` writes from `freshState rows`: the
full pages in full (serializations plus each page's 22 slack zero bytes),
then only the serialized bytes of the final partial page. -/
def closeFile (rows : List Row) : List Nat :=
  ((List.range (rows.length / ROWS_PER_PAGE)).map (fun j => pageOfRows (chunk rows j))).flatten
    ++ ((chunk rows (rows.length / ROWS_PER_PAGE)).map serBytes).flatten

/-- The select output's length, the observable refuting C1 at N = 196. -/
def roundTripLen (rows : List Row) : Except Fatal Nat := (roundTrip rows).map List.length

/-- 196 identical in-capacity rows: 14 exactly-full pages. -/
def rows196 : List Row := List.replicate 196 { id := 1, username := [], email := [] }

/-! ### Basic facts about the constants and the codec -/

theorem ROW_SIZE_eq : ROW_SIZE = 291 := rfl
theorem PAGE_SIZE_eq : PAGE_SIZE = 4096 := rfl
theorem TABLE_MAX_PAGES_eq : TABLE_MAX_PAGES = 100 := rfl
theorem ROWS_PER_PAGE_eq : ROWS_PER_PAGE = 14 := rfl
theorem TABLE_MAX_ROWS_eq : TABLE_MAX_ROWS = 1400 := rfl
theorem ID_SIZE_eq : ID_SIZE = 4 := rfl
theorem USERNAME_SIZE_eq : USERNAME_SIZE = 32 := rfl
theorem EMAIL_SIZE_eq : EMAIL_SIZE = 255 := rfl
theorem ID_OFFSET_eq : ID_OFFSET = 0 := rfl
theorem USERNAME_OFFSET_eq : USERNAME_OFFSET = 4 := rfl
theorem EMAIL_OFFSET_eq : EMAIL_OFFSET = 36 := rfl

theorem utf8Run_append {u : List Nat} {exp : List (Nat × Nat)} (v : List Nat)
    (hu : utf8Run u exp = true) : utf8Run (u ++ v) exp = utf8Run v [] := by
  induction u generalizing exp with
  | nil =>
    match exp, hu with
    | [], _ => simp
  | cons b bs ih =>
    match exp with
    | [] =>
      rw [utf8Run] at hu
      rw [List.cons_append, utf8Run]
      cases hcls : utf8Class b with
      | some exp2 => rw [hcls] at hu; exact ih hu
      | none => rw [hcls] at hu; exact Bool.noConfusion hu
    | (lo, hi) :: exp =>
      rw [utf8Run] at hu
      rw [List.cons_append, utf8Run]
      split at hu
      · rw [if_pos (by assumption)]; exact ih hu
      · cases hu

theorem utf8Valid_append {u : List Nat} (v : List Nat) (hu : utf8Valid u = true) :
    utf8Valid (u ++ v) = utf8Valid v :=
  utf8Run_append v hu

theorem utf8Valid_replicate_zero (k : Nat) : utf8Valid (List.replicate k 0) = true := by
  induction k with
  | zero => rfl
  | succ n ih =>
    rw [List.replicate_succ]
    show utf8Run (0 :: List.replicate n 0) [] = true
    rw [utf8Run]
    simp only [utf8Class, if_pos (by omega : (0:Nat) ≤ 127)]
    exact ih

theorem utf8Valid_padTo (n : Nat) {l : List Nat} (hl : utf8Valid l = true) :
    utf8Valid (padTo n l) = true := by
  rw [padTo, utf8Valid_append _ hl]; exact utf8Valid_replicate_zero _

theorem padTo_length {n : Nat} {l : List Nat} (h : l.length ≤ n) :
    (padTo n l).length = n := by
  simp [padTo]; omega

theorem leBytes4_length (n : Nat) : (leBytes4 n).length = 4 := rfl

theorem fromLe4_leBytes4 {n : Nat} (h : n < 4294967296) : fromLe4 (leBytes4 n) = n := by
  show n % 256 + 256 * (n / 256 % 256) + 65536 * (n / 65536 % 256) +
    16777216 * (n / 16777216 % 256) = n
  omega

theorem serBytes_length {r : Row} (hu : r.username.length ≤ USERNAME_SIZE)
    (he : r.email.length ≤ EMAIL_SIZE) : (serBytes r).length = ROW_SIZE := by
  simp [serBytes, padTo_length hu, padTo_length he]
  rfl

theorem slice_serBytes_id (r : Row) :
    slice (serBytes r) ID_OFFSET ID_SIZE = leBytes4 r.id := by
  show slice (serBytes r) 0 4 = leBytes4 r.id
  rw [serBytes, slice, List.drop_zero, List.append_assoc,
    List.take_left' (leBytes4_length r.id)]

theorem slice_serBytes_username {r : Row} (hu : r.username.length ≤ USERNAME_SIZE) :
    slice (serBytes r) USERNAME_OFFSET USERNAME_SIZE = padTo USERNAME_SIZE r.username := by
  show slice (serBytes r) 4 32 = padTo USERNAME_SIZE r.username
  rw [serBytes, slice, List.append_assoc, List.drop_left' (leBytes4_length r.id)]
  rw [List.take_left' (by rw [padTo_length hu]; rfl)]

theorem slice_serBytes_email {r : Row} (hu : r.username.length ≤ USERNAME_SIZE)
    (he : r.email.length ≤ EMAIL_SIZE) :
    slice (serBytes r) EMAIL_OFFSET EMAIL_SIZE = padTo EMAIL_SIZE r.email := by
  show slice (serBytes r) 36 255 = padTo EMAIL_SIZE r.email
  rw [serBytes, slice]
  rw [List.drop_left' (by simp [padTo_length hu, leBytes4_length]; rfl)]
  rw [show (255:Nat) = (padTo EMAIL_SIZE r.email).length from (padTo_length he).symm,
    List.take_length]

/-- `deserialize_row` applied to freshly serialized bytes of an in-capacity,
well-typed row. -/
theorem deserialize_serBytes {r : Row} (hid : r.id < 4294967296)
    (hu : r.username.length ≤ USERNAME_SIZE) (he : r.email.length ≤ EMAIL_SIZE)
    (hvu : utf8Valid r.username = true) (hve : utf8Valid r.email = true) :
    Row.deserialize_row (serBytes r) =
      some { id := r.id, username := padTo USERNAME_SIZE r.username,
             email := padTo EMAIL_SIZE r.email } := by
  rw [Row.deserialize_row]
  rw [if_neg (by rw [serBytes_length hu he]; exact lt_irrefl _)]
  simp only [slice_serBytes_id, slice_serBytes_username hu, slice_serBytes_email hu he]
  simp [utf8Valid_padTo _ hvu, utf8Valid_padTo _ hve, fromLe4_leBytes4 hid]

/-! ### Claim C2 -/

/-- C2: for every row whose username is at most 32 bytes and whose email is at
most 255 bytes of UTF-8 (and whose `id` is a `u32`), deserializing the
serialized bytes returns `some` row with the same id, the username equal to
the original bytes zero-padded to exactly 32 bytes, and the email equal to the
original bytes zero-padded to exactly 255 bytes (padding is not trimmed). -/
theorem claim_C2_codec_roundtrip (r : Row) (hid : r.id < 4294967296)
    (hu : r.username.length ≤ 32) (he : r.email.length ≤ 255)
    (hvu : utf8Valid r.username = true) (hve : utf8Valid r.email = true) :
    ∃ bs, r.serialize_row = some bs ∧
      Row.deserialize_row bs =
        some { id := r.id,
               username := r.username ++ List.replicate (32 - r.username.length) 0,
               email := r.email ++ List.replicate (255 - r.email.length) 0 } ∧
      (r.username ++ List.replicate (32 - r.username.length) 0).length = 32 ∧
      (r.email ++ List.replicate (255 - r.email.length) 0).length = 255 := by
  refine ⟨serBytes r, ?_, ?_, ?_, ?_⟩
  · rw [Row.serialize_row, if_pos (show r.username.length ≤ USERNAME_SIZE from hu),
      if_pos (show r.email.length ≤ EMAIL_SIZE from he)]
  · exact deserialize_serBytes hid hu he hvu hve
  · exact padTo_length hu
  · exact padTo_length he

theorem claim_C2_codec_roundtrip_witness :
    ∃ bs, Row.serialize_row { id := 7, username := [104, 105], email := [101] } = some bs ∧
      Row.deserialize_row bs =
        some { id := 7,
               username := [104, 105] ++ List.replicate (32 - [104, 105].length) 0,
               email := [101] ++ List.replicate (255 - [101].length) 0 } ∧
      ([104, 105] ++ List.replicate (32 - [104, 105].length) 0).length = 32 ∧
      ([101] ++ List.replicate (255 - [101].length) 0).length = 255 :=
  claim_C2_codec_roundtrip { id := 7, username := [104, 105], email := [101] }
    (by decide) (by decide) (by decide) (by decide) (by decide)

/-! ### Claim C4 -/

/-- C4: for every in-capacity row, `serialize_row` returns a 291-byte buffer:
the 4 little-endian bytes of `id` at offset 0, the username bytes zero-padded
to 32 bytes at offset 4, and the email bytes zero-padded to 255 bytes at
offset 36. -/
theorem claim_C4_serialize_layout (r : Row) (hid : r.id < 4294967296)
    (hu : r.username.length ≤ 32) (he : r.email.length ≤ 255) :
    ∃ bs, r.serialize_row = some bs ∧ bs.length = 291 ∧
      slice bs 0 4 = leBytes4 r.id ∧ fromLe4 (slice bs 0 4) = r.id ∧
      slice bs 4 32 = r.username ++ List.replicate (32 - r.username.length) 0 ∧
      slice bs 36 255 = r.email ++ List.replicate (255 - r.email.length) 0 := by
  refine ⟨serBytes r, ?_, ?_, ?_, ?_, ?_, ?_⟩
  · rw [Row.serialize_row, if_pos (show r.username.length ≤ USERNAME_SIZE from hu),
      if_pos (show r.email.length ≤ EMAIL_SIZE from he)]
  · rw [serBytes_length hu he]; rfl
  · exact slice_serBytes_id r
  · show fromLe4 (slice (serBytes r) ID_OFFSET ID_SIZE) = r.id
    rw [slice_serBytes_id r, fromLe4_leBytes4 hid]
  · exact slice_serBytes_username hu
  · exact slice_serBytes_email hu he

theorem claim_C4_serialize_layout_witness :
    ∃ bs, Row.serialize_row { id := 258, username := [97], email := [98, 99] } = some bs ∧
      bs.length = 291 ∧
      slice bs 0 4 = leBytes4 258 ∧ fromLe4 (slice bs 0 4) = 258 ∧
      slice bs 4 32 = [97] ++ List.replicate (32 - [97].length) 0 ∧
      slice bs 36 255 = [98, 99] ++ List.replicate (255 - [98, 99].length) 0 :=
  claim_C4_serialize_layout { id := 258, username := [97], email := [98, 99] }
    (by decide) (by decide) (by decide)

/-! ### Claim C8 -/

/-- C8: `deserialize_row` returns `none` iff the buffer is shorter than 291
bytes or bytes 4..36 are not valid UTF-8 or bytes 36..291 are not valid
UTF-8; otherwise it returns `some` row with the id read little-endian from
bytes 0..4, the username being bytes 4..36 verbatim and the email being bytes
36..291 verbatim (padding included, no trimming). -/
theorem claim_C8_deserialize_spec (b : List Nat) :
    (Row.deserialize_row b = none ↔
      (b.length < 291 ∨ utf8Valid (slice b 4 32) = false ∨
        utf8Valid (slice b 36 255) = false)) ∧
    (291 ≤ b.length → utf8Valid (slice b 4 32) = true →
      utf8Valid (slice b 36 255) = true →
      Row.deserialize_row b =
        some { id := fromLe4 (slice b 0 4), username := slice b 4 32,
               email := slice b 36 255 }) := by
  simp only [Row.deserialize_row, ID_SIZE_eq, USERNAME_SIZE_eq, EMAIL_SIZE_eq,
    ID_OFFSET_eq, USERNAME_OFFSET_eq, EMAIL_OFFSET_eq]
  constructor
  · split_ifs with h1 h2 h3 <;> simp_all
  · intro h hv1 hv2
    rw [if_neg (by omega), if_pos hv1, if_pos hv2]

theorem claim_C8_deserialize_spec_witness :
    Row.deserialize_row (List.replicate 291 0) =
      some { id := fromLe4 (slice (List.replicate 291 0) 0 4),
             username := slice (List.replicate 291 0) 4 32,
             email := slice (List.replicate 291 0) 36 255 } :=
  (claim_C8_deserialize_spec (List.replicate 291 0)).2
    (le_of_eq (List.length_replicate ..).symm) (by decide) (by decide)


/-! ### List and pager groundwork -/

theorem listWrite_length {l data : List Nat} {off : Nat} (h : off + data.length ≤ l.length) :
    (listWrite l off data).length = l.length := by
  simp [listWrite]; omega

theorem slice_listWrite_self {l data : List Nat} {off : Nat}
    (h : off + data.length ≤ l.length) :
    slice (listWrite l off data) off data.length = data := by
  rw [listWrite, slice, List.append_assoc,
    List.drop_left' (by rw [List.length_take]; omega), List.take_left]

theorem writeFileAt_at_end {f data : List Nat} :
    writeFileAt f f.length data = f ++ data := by
  rw [writeFileAt, List.take_length, Nat.sub_self]
  simp [List.drop_eq_nil_of_le]

theorem writeFileAt_length (f data : List Nat) (off : Nat) :
    (writeFileAt f off data).length = max (off + data.length) f.length := by
  simp [writeFileAt]; omega

theorem loadPage_length (file : List Nat) (n : Nat) :
    (loadPage file n).length = PAGE_SIZE := by
  have h : (slice file (n * PAGE_SIZE) PAGE_SIZE).length ≤ PAGE_SIZE := by
    rw [slice]; exact List.length_take_le ..
  simp [loadPage]; omega

theorem loadPage_beyond {file : List Nat} {n : Nat} (h : file.length ≤ n * PAGE_SIZE) :
    loadPage file n = List.replicate PAGE_SIZE 0 := by
  rw [loadPage, slice, List.drop_eq_nil_of_le h]
  simp

theorem pageLoad_length (p : Pager) (n : Nat) : (p.pageLoad n).length = PAGE_SIZE := by
  rw [Pager.pageLoad]
  by_cases h2 : n ≤ p.file_length / PAGE_SIZE + (if p.file_length % PAGE_SIZE ≠ 0 then 1 else 0)
  · rw [if_pos h2]; exact loadPage_length ..
  · rw [if_neg h2]; simp

theorem pageLoad_beyond {p : Pager} {n : Nat} (h : p.file.length ≤ n * PAGE_SIZE) :
    p.pageLoad n = List.replicate PAGE_SIZE 0 := by
  rw [Pager.pageLoad]
  by_cases h2 : n ≤ p.file_length / PAGE_SIZE + (if p.file_length % PAGE_SIZE ≠ 0 then 1 else 0)
  · rw [if_pos h2]; exact loadPage_beyond h
  · rw [if_neg h2]

theorem get_page_mut_big {p : Pager} {n : Nat} (h : 100 < n) :
    p.get_page_mut n = .error .exitPageBound := by
  rw [Pager.get_page_mut,
    if_pos (show TABLE_MAX_PAGES < n by rw [TABLE_MAX_PAGES_eq]; exact h)]

theorem get_page_mut_100 (p : Pager) :
    p.get_page_mut 100 = .error .panicIndex := by
  rw [Pager.get_page_mut, if_neg (by rw [TABLE_MAX_PAGES_eq]; omega),
    dif_neg (by rw [TABLE_MAX_PAGES_eq]; omega)]

theorem get_page_mut_resident {p : Pager} {n : Nat} (h : n < TABLE_MAX_PAGES) {pg : List Nat}
    (hres : p.pages ⟨n, h⟩ = some pg) : p.get_page_mut n = .ok (pg, p) := by
  rw [Pager.get_page_mut, if_neg (by rw [TABLE_MAX_PAGES_eq] at h ⊢; omega), dif_pos h, hres]

theorem get_page_mut_empty {p : Pager} {n : Nat} (h : n < TABLE_MAX_PAGES)
    (hres : p.pages ⟨n, h⟩ = none) :
    p.get_page_mut n =
      .ok (p.pageLoad n,
        { p with pages := Function.update p.pages ⟨n, h⟩ (some (p.pageLoad n)) }) := by
  rw [Pager.get_page_mut, if_neg (by rw [TABLE_MAX_PAGES_eq] at h ⊢; omega), dif_pos h, hres]


/-! ### Page images of inserted rows -/

theorem validRow_ser_length {r : Row} (hr : ValidRow r) : (serBytes r).length = ROW_SIZE :=
  serBytes_length hr.2.1 hr.2.2.2.1

theorem serFlat_length {rows : List Row} (hv : ∀ x ∈ rows, ValidRow x) :
    ((rows.map serBytes).flatten).length = ROW_SIZE * rows.length := by
  induction rows with
  | nil => simp
  | cons r rs ih =>
    simp only [List.map_cons, List.flatten_cons, List.length_append, List.length_cons]
    rw [validRow_ser_length (hv r (by simp)), ih (fun x hx => hv x (by simp [hx]))]
    ring

theorem pageOfRows_length {rows : List Row} (hv : ∀ x ∈ rows, ValidRow x)
    (hn : rows.length ≤ ROWS_PER_PAGE) : (pageOfRows rows).length = PAGE_SIZE := by
  rw [pageOfRows, List.length_append, serFlat_length hv, List.length_replicate]
  rw [ROWS_PER_PAGE_eq] at hn
  rw [ROW_SIZE_eq, PAGE_SIZE_eq]
  omega

theorem pageOfRows_nil : pageOfRows [] = List.replicate PAGE_SIZE 0 := by
  simp [pageOfRows]

theorem listWrite_zeroPage {r : Row} (hr : ValidRow r) :
    listWrite (List.replicate PAGE_SIZE 0) 0 (serBytes r) = pageOfRows [r] := by
  rw [listWrite, List.take_zero, List.nil_append, List.drop_replicate,
    validRow_ser_length hr, pageOfRows]
  simp

theorem pageOfRows_take {rows : List Row} (hv : ∀ x ∈ rows, ValidRow x) :
    (pageOfRows rows).take (ROW_SIZE * rows.length) = (rows.map serBytes).flatten := by
  rw [pageOfRows, List.take_left' (serFlat_length hv)]

theorem pageOfRows_snoc {rows : List Row} {r : Row} (hv : ∀ x ∈ rows, ValidRow x)
    (hr : ValidRow r) (hn : rows.length < ROWS_PER_PAGE) :
    listWrite (pageOfRows rows) (ROW_SIZE * rows.length) (serBytes r) =
      pageOfRows (rows ++ [r]) := by
  rw [listWrite, pageOfRows_take hv, validRow_ser_length hr]
  rw [pageOfRows, List.drop_append_eq_append_drop,
    List.drop_eq_nil_of_le (by rw [serFlat_length hv]; omega), List.nil_append,
    List.drop_replicate, serFlat_length hv]
  rw [pageOfRows, List.map_append, List.flatten_append]
  simp only [List.map_cons, List.map_nil, List.flatten_cons, List.flatten_nil,
    List.append_nil, List.length_append, List.length_cons, List.length_nil]
  rw [List.append_assoc]
  have hAB : PAGE_SIZE - ROW_SIZE * rows.length -
      (ROW_SIZE * rows.length + ROW_SIZE - ROW_SIZE * rows.length)
      = PAGE_SIZE - ROW_SIZE * (rows.length + (0 + 1)) := by
    rw [ROW_SIZE_eq, PAGE_SIZE_eq]; omega
  rw [hAB, List.append_assoc]

theorem slice_serFlat {rows : List Row} (hv : ∀ x ∈ rows, ValidRow x) {k : Nat}
    (hk : k < rows.length) :
    slice ((rows.map serBytes).flatten) (ROW_SIZE * k) ROW_SIZE =
      serBytes (rows.get ⟨k, hk⟩) := by
  induction rows generalizing k with
  | nil => cases hk
  | cons r rs ih =>
    cases k with
    | zero =>
      simp only [List.map_cons, List.flatten_cons, Nat.mul_zero]
      rw [slice, List.drop_zero, List.take_left' (validRow_ser_length (hv r (by simp)))]
      rfl
    | succ k =>
      simp only [List.map_cons, List.flatten_cons]
      rw [slice, List.drop_append_eq_append_drop,
        List.drop_eq_nil_of_le
          (by rw [validRow_ser_length (hv r (by simp))]; rw [ROW_SIZE_eq]; omega),
        List.nil_append, validRow_ser_length (hv r (by simp))]
      rw [show ROW_SIZE * (k + 1) - ROW_SIZE = ROW_SIZE * k by rw [ROW_SIZE_eq]; omega]
      exact ih (fun x hx => hv x (by simp [hx])) (Nat.lt_of_succ_lt_succ hk)

theorem slice_pageOfRows {rows : List Row} (hv : ∀ x ∈ rows, ValidRow x)
    (hn : rows.length ≤ ROWS_PER_PAGE) {k : Nat} (hk : k < rows.length) :
    slice (pageOfRows rows) (ROW_SIZE * k) ROW_SIZE = serBytes (rows.get ⟨k, hk⟩) := by
  rw [pageOfRows, slice, List.drop_append_eq_append_drop, List.take_append_eq_append_take]
  rw [← slice, slice_serFlat hv hk]
  rw [List.length_drop, serFlat_length hv]
  rw [show ROW_SIZE - (ROW_SIZE * rows.length - ROW_SIZE * k) = 0 by
    rw [ROW_SIZE_eq]; omega]
  simp

theorem chunk_stable {rows : List Row} {r : Row} {j : Nat}
    (h : ROWS_PER_PAGE * j + ROWS_PER_PAGE ≤ rows.length) :
    chunk (rows ++ [r]) j = chunk rows j := by
  rw [chunk, chunk, List.drop_append_eq_append_drop,
    List.take_append_of_le_length (by rw [List.length_drop]; omega)]

theorem chunk_snoc {rows : List Row} {r : Row} {j : Nat}
    (h1 : ROWS_PER_PAGE * j ≤ rows.length)
    (h2 : rows.length - ROWS_PER_PAGE * j < ROWS_PER_PAGE) :
    chunk (rows ++ [r]) j = chunk rows j ++ [r] := by
  rw [chunk, chunk, List.drop_append_eq_append_drop,
    Nat.sub_eq_zero_of_le h1, List.drop_zero,
    List.take_of_length_le (by simp only [List.length_append, List.length_drop,
      List.length_cons, List.length_nil]; omega),
    List.take_of_length_le (by rw [List.length_drop]; omega)]

theorem serialize_of_valid {r : Row} (hr : ValidRow r) :
    r.serialize_row = some (serBytes r) := by
  rw [Row.serialize_row, if_pos hr.2.1, if_pos hr.2.2.2.1]

theorem table_get_page_resident {t : Table} {n : Nat} (h : n < TABLE_MAX_PAGES)
    {pg : List Nat} (hres : t.pager.pages ⟨n, h⟩ = some pg) :
    t.get_page_mut n = .ok (pg, t) := by
  rw [Table.get_page_mut, get_page_mut_resident h hres]

theorem table_get_page_empty {t : Table} {n : Nat} (h : n < TABLE_MAX_PAGES)
    (hres : t.pager.pages ⟨n, h⟩ = none) :
    t.get_page_mut n =
      .ok (t.pager.pageLoad n,
        { t with pager := { t.pager with
            pages := Function.update t.pager.pages ⟨n, h⟩ (some (t.pager.pageLoad n)) } }) := by
  rw [Table.get_page_mut, get_page_mut_empty h hres]

theorem chunk_length {rows : List Row} {j : Nat} (h : ROWS_PER_PAGE * j ≤ rows.length)
    (h2 : rows.length - ROWS_PER_PAGE * j ≤ ROWS_PER_PAGE) :
    (chunk rows j).length = rows.length - ROWS_PER_PAGE * j := by
  rw [chunk, List.length_take, List.length_drop]
  omega

theorem chunk_valid {rows : List Row} (hv : ∀ x ∈ rows, ValidRow x) (j : Nat) :
    ∀ x ∈ chunk rows j, ValidRow x := by
  intro x hx
  exact hv x (List.mem_of_mem_drop (List.mem_of_mem_take hx))

theorem freshPages_snoc_zero {rows : List Row} (r : Row)
    (h : rows.length / ROWS_PER_PAGE < TABLE_MAX_PAGES)
    (hmod : rows.length % ROWS_PER_PAGE = 0) :
    Function.update (freshPages rows) ⟨rows.length / ROWS_PER_PAGE, h⟩
        (some (pageOfRows [r])) = freshPages (rows ++ [r]) := by
  have hm : rows.length % 14 = 0 := by rw [ROWS_PER_PAGE_eq] at hmod; exact hmod
  have hfull : ROWS_PER_PAGE * (rows.length / ROWS_PER_PAGE) = rows.length := by
    rw [ROWS_PER_PAGE_eq]; omega
  funext j
  by_cases hj : j = (⟨rows.length / ROWS_PER_PAGE, h⟩ : Fin TABLE_MAX_PAGES)
  · subst hj
    rw [Function.update_same]
    show _ = if ROWS_PER_PAGE * (rows.length / ROWS_PER_PAGE) < (rows ++ [r]).length then
      some (pageOfRows (chunk (rows ++ [r]) (rows.length / ROWS_PER_PAGE))) else none
    rw [List.length_append, List.length_cons, List.length_nil, hfull,
      if_pos (by omega)]
    rw [chunk, hfull, List.drop_left, List.take_of_length_le
      (by rw [List.length_cons, List.length_nil, ROWS_PER_PAGE_eq]; omega)]
  · rw [Function.update_noteq hj]
    have hjv : j.val ≠ rows.length / ROWS_PER_PAGE := by
      intro hc; exact hj (Fin.ext hc)
    show (if ROWS_PER_PAGE * j.val < rows.length then some (pageOfRows (chunk rows j.val))
        else none) =
      if ROWS_PER_PAGE * j.val < (rows ++ [r]).length then
        some (pageOfRows (chunk (rows ++ [r]) j.val)) else none
    rw [List.length_append, List.length_cons, List.length_nil]
    have hne : ROWS_PER_PAGE * j.val ≠ rows.length := by
      rw [ROWS_PER_PAGE_eq]
      intro hc
      apply hjv
      rw [← hc, ROWS_PER_PAGE_eq]
      omega
    by_cases hlt : ROWS_PER_PAGE * j.val < rows.length
    · rw [if_pos hlt, if_pos (by omega)]
      rw [chunk_stable (by
        rw [ROWS_PER_PAGE_eq] at hlt hne ⊢
        rw [ROWS_PER_PAGE_eq] at hjv
        omega)]
    · rw [if_neg hlt, if_neg (by omega)]

theorem freshPages_snoc_pos {rows : List Row} (r : Row)
    (h : rows.length / ROWS_PER_PAGE < TABLE_MAX_PAGES)
    (hmod : rows.length % ROWS_PER_PAGE ≠ 0) :
    Function.update (freshPages rows) ⟨rows.length / ROWS_PER_PAGE, h⟩
        (some (pageOfRows (chunk rows (rows.length / ROWS_PER_PAGE) ++ [r]))) =
      freshPages (rows ++ [r]) := by
  have hm : rows.length % 14 ≠ 0 := by rw [ROWS_PER_PAGE_eq] at hmod; exact hmod
  funext j
  by_cases hj : j = (⟨rows.length / ROWS_PER_PAGE, h⟩ : Fin TABLE_MAX_PAGES)
  · subst hj
    rw [Function.update_same]
    show _ = if ROWS_PER_PAGE * (rows.length / ROWS_PER_PAGE) < (rows ++ [r]).length then
      some (pageOfRows (chunk (rows ++ [r]) (rows.length / ROWS_PER_PAGE))) else none
    rw [List.length_append, List.length_cons, List.length_nil,
      if_pos (by rw [ROWS_PER_PAGE_eq]; omega)]
    rw [chunk_snoc (by rw [ROWS_PER_PAGE_eq]; omega) (by rw [ROWS_PER_PAGE_eq]; omega)]
  · rw [Function.update_noteq hj]
    have hjv : j.val ≠ rows.length / ROWS_PER_PAGE := by
      intro hc; exact hj (Fin.ext hc)
    show (if ROWS_PER_PAGE * j.val < rows.length then some (pageOfRows (chunk rows j.val))
        else none) =
      if ROWS_PER_PAGE * j.val < (rows ++ [r]).length then
        some (pageOfRows (chunk (rows ++ [r]) j.val)) else none
    rw [List.length_append, List.length_cons, List.length_nil]
    have hne : ROWS_PER_PAGE * j.val ≠ rows.length := by
      rw [ROWS_PER_PAGE_eq]
      intro hc
      exact hm (by omega)
    by_cases hlt : ROWS_PER_PAGE * j.val < rows.length
    · rw [if_pos hlt, if_pos (by omega)]
      rw [chunk_stable (by
        rw [ROWS_PER_PAGE_eq] at hlt hne ⊢
        rw [ROWS_PER_PAGE_eq] at hjv
        omega)]
    · rw [if_neg hlt, if_neg (by omega)]

theorem pageLoad_emptyFile {fl : Nat} {pgs : Fin TABLE_MAX_PAGES → Option (List Nat)}
    {n : Nat} :
    Pager.pageLoad { file := [], file_length := fl, pages := pgs } n =
      List.replicate PAGE_SIZE 0 :=
  pageLoad_beyond (by simp)

/-- Inserting one more valid row into the state reached by inserting `rows`
into a freshly opened empty table. -/
theorem insert_step {rows : List Row} {r : Row} (hlen : rows.length < TABLE_MAX_ROWS)
    (hv : ∀ x ∈ rows, ValidRow x) (hr : ValidRow r) :
    execute_insert (freshState rows) r = .ok (.Success, freshState (rows ++ [r])) := by
  have hlen14 : rows.length < 1400 := by rw [TABLE_MAX_ROWS_eq] at hlen; exact hlen
  have hpagelt : rows.length / ROWS_PER_PAGE < TABLE_MAX_PAGES := by
    rw [ROWS_PER_PAGE_eq, TABLE_MAX_PAGES_eq]; omega
  simp only [execute_insert, freshState]
  rw [if_neg (show ¬ (rows.length ≥ TABLE_MAX_ROWS) by omega)]
  rw [serialize_of_valid hr]
  by_cases hmod : rows.length % ROWS_PER_PAGE = 0
  · have hres : freshPages rows ⟨rows.length / ROWS_PER_PAGE, hpagelt⟩ = none := by
      show (if ROWS_PER_PAGE * (rows.length / ROWS_PER_PAGE) < rows.length then
        some (pageOfRows (chunk rows (rows.length / ROWS_PER_PAGE))) else none) = none
      rw [if_neg (by rw [ROWS_PER_PAGE_eq]; rw [ROWS_PER_PAGE_eq] at hmod; omega)]
    rw [@table_get_page_empty
      (Table.mk (Pager.mk [] 0 (freshPages rows)) rows.length) _ hpagelt hres]
    rw [pageLoad_emptyFile]
    dsimp only
    rw [hmod, Nat.zero_mul, listWrite_zeroPage hr]
    rw [Table.setPage, dif_pos hpagelt]
    dsimp only
    rw [Function.update_idem, freshPages_snoc_zero r hpagelt hmod]
    simp only [List.length_append, List.length_cons, List.length_nil]
  · have hres : freshPages rows ⟨rows.length / ROWS_PER_PAGE, hpagelt⟩ =
        some (pageOfRows (chunk rows (rows.length / ROWS_PER_PAGE))) := by
      show (if ROWS_PER_PAGE * (rows.length / ROWS_PER_PAGE) < rows.length then
        some (pageOfRows (chunk rows (rows.length / ROWS_PER_PAGE))) else none) = _
      rw [if_pos (by rw [ROWS_PER_PAGE_eq]; rw [ROWS_PER_PAGE_eq] at hmod; omega)]
    rw [@table_get_page_resident
      (Table.mk (Pager.mk [] 0 (freshPages rows)) rows.length) _ hpagelt _ hres]
    dsimp only
    have hclen : (chunk rows (rows.length / ROWS_PER_PAGE)).length =
        rows.length % ROWS_PER_PAGE := by
      rw [chunk_length (by rw [ROWS_PER_PAGE_eq]; omega) (by rw [ROWS_PER_PAGE_eq]; omega),
        ROWS_PER_PAGE_eq]
      rw [ROWS_PER_PAGE_eq] at hmod
      omega
    rw [show rows.length % ROWS_PER_PAGE * ROW_SIZE =
      ROW_SIZE * (chunk rows (rows.length / ROWS_PER_PAGE)).length from by
        rw [hclen, Nat.mul_comm]]
    rw [pageOfRows_snoc (chunk_valid hv _) hr
      (by rw [hclen, ROWS_PER_PAGE_eq]; rw [ROWS_PER_PAGE_eq] at hmod; omega)]
    rw [Table.setPage, dif_pos hpagelt]
    dsimp only
    rw [freshPages_snoc_pos r hpagelt hmod]
    simp only [List.length_append, List.length_cons, List.length_nil]

theorem insertAll_append (t : Table) (xs ys : List Row) :
    insertAll t (xs ++ ys) =
      match insertAll t xs with
      | .error e => .error e
      | .ok (res, t1) =>
          match insertAll t1 ys with
          | .error e => .error e
          | .ok (res2, t2) => .ok (res ++ res2, t2) := by
  induction xs generalizing t with
  | nil =>
    rw [List.nil_append]
    cases hy : insertAll t ys with
    | error e => simp only [insertAll, hy]
    | ok v => obtain ⟨a, b⟩ := v; simp only [insertAll, hy, List.nil_append]
  | cons x xs ih =>
    rw [List.cons_append, insertAll, insertAll]
    cases execute_insert t x with
    | error e => rfl
    | ok v =>
      obtain ⟨res, t1⟩ := v
      dsimp only
      rw [ih t1]
      cases insertAll t1 xs with
      | error e => rfl
      | ok v2 =>
        obtain ⟨res2, t2⟩ := v2
        dsimp only
        cases insertAll t2 ys with
        | error e => rfl
        | ok v3 =>
          obtain ⟨res3, t3⟩ := v3
          dsimp only
          rw [List.cons_append]

theorem db_open_nil : Table.db_open [] = freshState [] := by
  rw [Table.db_open, Pager.pager_open, freshState]
  have hfr : freshPages [] = fun _ => none := by
    funext j
    show (if ROWS_PER_PAGE * j.val < ([] : List Row).length then
      some (pageOfRows (chunk [] j.val)) else none) = none
    rw [if_neg (by simp)]
  rw [hfr]
  simp

theorem insertAll_fresh {rows : List Row} (h : rows.length ≤ TABLE_MAX_ROWS)
    (hv : ∀ x ∈ rows, ValidRow x) :
    insertAll (Table.db_open []) rows =
      .ok (List.replicate rows.length .Success, freshState rows) := by
  induction rows using List.reverseRecOn with
  | nil => rw [db_open_nil]; rfl
  | append_singleton xs x ih =>
    rw [insertAll_append]
    rw [ih (by rw [List.length_append] at h; omega)
      (fun y hy => hv y (by simp [hy]))]
    dsimp only
    rw [insertAll, insert_step
      (by rw [List.length_append, List.length_cons, List.length_nil] at h;
          rw [TABLE_MAX_ROWS_eq] at h ⊢; omega)
      (fun y hy => hv y (by simp [hy])) (hv x (by simp))]
    dsimp only
    rw [insertAll]
    dsimp only
    rw [List.length_append, List.length_cons, List.length_nil,
      show xs.length + (0 + 1) = xs.length + 1 from by omega, List.replicate_succ']

/-- Pages still resident after the first `i` iterations of `db_close`'s full
flush loop over the fresh-insert state. -/
def midPages (rows : List Row) (i : Nat) : Fin TABLE_MAX_PAGES → Option (List Nat) :=
  fun j => if j.val < i then none else freshPages rows j

/-- The file written by the first `i` iterations of the full flush loop. -/
def midFile (rows : List Row) (i : Nat) : List Nat :=
  ((List.range i).map (fun j => pageOfRows (chunk rows j))).flatten

def midPager (rows : List Row) (i : Nat) : Pager :=
  Pager.mk (midFile rows i) 0 (midPages rows i)

theorem chunk_le (rows : List Row) (j : Nat) : (chunk rows j).length ≤ ROWS_PER_PAGE :=
  List.length_take_le ..

theorem midFile_succ (rows : List Row) (i : Nat) :
    midFile rows (i + 1) = midFile rows i ++ pageOfRows (chunk rows i) := by
  rw [midFile, midFile, List.range_succ, List.map_append, List.flatten_append]
  simp

theorem midFile_length {rows : List Row} (hv : ∀ x ∈ rows, ValidRow x) (i : Nat) :
    (midFile rows i).length = PAGE_SIZE * i := by
  induction i with
  | zero => rfl
  | succ k ih =>
    rw [midFile_succ, List.length_append, ih,
      pageOfRows_length (chunk_valid hv k) (chunk_le rows k)]
    ring

theorem closeFullLoop_fresh {rows : List Row} (hv : ∀ x ∈ rows, ValidRow x)
    (hlen : rows.length ≤ TABLE_MAX_ROWS) :
    ∀ c i, i + c = rows.length / ROWS_PER_PAGE →
      closeFullLoop (midPager rows i) i c =
        .ok (midPager rows (rows.length / ROWS_PER_PAGE)) := by
  have hn1400 : rows.length ≤ 1400 := by rw [TABLE_MAX_ROWS_eq] at hlen; exact hlen
  have hfp : rows.length / ROWS_PER_PAGE ≤ 100 := by rw [ROWS_PER_PAGE_eq]; omega
  intro c
  induction c with
  | zero =>
    intro i hic
    rw [closeFullLoop]
    rw [show i = rows.length / ROWS_PER_PAGE from by omega]
  | succ c ih =>
    intro i hic
    have hii : i < TABLE_MAX_PAGES := by rw [TABLE_MAX_PAGES_eq]; omega
    have hresrow : ROWS_PER_PAGE * i < rows.length := by
      rw [ROWS_PER_PAGE_eq]
      rw [ROWS_PER_PAGE_eq] at hic
      omega
    have hpg : midPages rows i ⟨i, hii⟩ = some (pageOfRows (chunk rows i)) := by
      show (if i < i then none else freshPages rows ⟨i, hii⟩) = _
      rw [if_neg (lt_irrefl i)]
      show (if ROWS_PER_PAGE * i < rows.length then some (pageOfRows (chunk rows i))
        else none) = _
      rw [if_pos hresrow]
    rw [closeFullLoop]
    rw [show Pager.pageAt (midPager rows i) i = .ok (some (pageOfRows (chunk rows i))) from
      by rw [Pager.pageAt, dif_pos hii]; dsimp only [midPager]; exact congrArg Except.ok hpg]
    dsimp only
    rw [show Pager.flush (midPager rows i) i PAGE_SIZE =
        .ok (Pager.mk (midFile rows (i + 1)) 0 (midPages rows i)) from by
      rw [Pager.flush, Pager.pageAt, dif_pos hii]
      dsimp only [midPager]
      rw [hpg]
      dsimp only
      rw [List.take_of_length_le
        (le_of_eq (pageOfRows_length (chunk_valid hv i) (chunk_le rows i)))]
      rw [show i * PAGE_SIZE = (midFile rows i).length from by
        rw [midFile_length hv i]; ring]
      rw [writeFileAt_at_end, ← midFile_succ]]
    dsimp only
    rw [show Pager.evict (Pager.mk (midFile rows (i + 1)) 0 (midPages rows i)) i =
        Pager.mk (midFile rows (i + 1)) 0 (midPages rows (i + 1)) from by
      rw [Pager.evict, dif_pos hii]
      dsimp only
      have hup : Function.update (midPages rows i) ⟨i, hii⟩ none = midPages rows (i + 1) := by
        funext j
        by_cases hj : j = (⟨i, hii⟩ : Fin TABLE_MAX_PAGES)
        · subst hj
          rw [Function.update_same]
          show _ = if i < i + 1 then none else freshPages rows ⟨i, hii⟩
          rw [if_pos (by omega)]
        · rw [Function.update_noteq hj]
          have hjv : j.val ≠ i := fun hc => hj (Fin.ext hc)
          show (if j.val < i then none else freshPages rows j) =
            (if j.val < i + 1 then none else freshPages rows j)
          by_cases h2 : j.val < i
          · rw [if_pos h2, if_pos (by omega)]
          · rw [if_neg h2, if_neg (by omega)]
      rw [hup]]
    exact ih (i + 1) (by omega)

theorem clearLoop_spec : ∀ (c i : Nat) (p : Pager),
    clearLoop p i c = Pager.mk p.file p.file_length
      (fun j => if i ≤ j.val ∧ j.val < i + c then none else p.pages j) := by
  intro c
  induction c with
  | zero =>
    intro i p
    rw [clearLoop]
    have hfn : (fun j => if i ≤ j.val ∧ j.val < i + 0 then none else p.pages j) = p.pages :=
      funext fun j => if_neg (by omega)
    rw [hfn]
  | succ c ih =>
    intro i p
    rw [clearLoop, ih]
    by_cases hi : i < TABLE_MAX_PAGES
    · rw [Pager.evict, dif_pos hi]
      dsimp only
      have hfn : (fun j => if i + 1 ≤ j.val ∧ j.val < i + 1 + c then none
            else Function.update p.pages ⟨i, hi⟩ none j) =
          (fun j => if i ≤ j.val ∧ j.val < i + (c + 1) then none else p.pages j) := by
        funext j
        by_cases hj : j = (⟨i, hi⟩ : Fin TABLE_MAX_PAGES)
        · subst hj
          dsimp only
          rw [if_neg (by omega), Function.update_same, if_pos (by omega)]
        · rw [Function.update_noteq hj]
          have hjv : j.val ≠ i := fun hc => hj (Fin.ext hc)
          by_cases h2 : i + 1 ≤ j.val ∧ j.val < i + 1 + c
          · rw [if_pos h2, if_pos (by omega)]
          · rw [if_neg h2, if_neg (by omega)]
      exact congrArg (Pager.mk p.file p.file_length) hfn
    · rw [Pager.evict, dif_neg hi]
      have hfn : (fun j => if i + 1 ≤ j.val ∧ j.val < i + 1 + c then none else p.pages j) =
          (fun j => if i ≤ j.val ∧ j.val < i + (c + 1) then none else p.pages j) := by
        funext j
        have hjv : j.val < 100 := lt_of_lt_of_le j.isLt (by rw [TABLE_MAX_PAGES_eq])
        rw [TABLE_MAX_PAGES_eq] at hi
        rw [if_neg (by omega), if_neg (by omega)]
      exact congrArg (Pager.mk p.file p.file_length) hfn

theorem clearLoop_all (p : Pager) :
    clearLoop p 0 TABLE_MAX_PAGES = Pager.mk p.file p.file_length (fun _ => none) := by
  rw [clearLoop_spec]
  have hfn : (fun j : Fin TABLE_MAX_PAGES =>
      if 0 ≤ j.val ∧ j.val < 0 + TABLE_MAX_PAGES then none else p.pages j) =
      (fun _ => none) := by
    funext j
    exact if_pos ⟨Nat.zero_le _, Nat.lt_of_lt_of_le j.isLt (by rw [Nat.zero_add])⟩
  exact congrArg (Pager.mk p.file p.file_length) hfn

/-- `db_close` on the state reached by inserting `rows` into a freshly opened
empty table: every page below `num_rows / 14` is flushed in full, a partial
final page is flushed as `(num_rows % 14) * 291` bytes, and the cache is
emptied. -/
theorem db_close_fresh {rows : List Row} (hv : ∀ x ∈ rows, ValidRow x)
    (hlen : rows.length ≤ TABLE_MAX_ROWS) :
    (freshState rows).db_close =
      .ok (Table.mk (Pager.mk (closeFile rows) 0 (fun _ => none)) rows.length) := by
  have hmid0 : midPager rows 0 = Pager.mk [] 0 (freshPages rows) := by
    rw [midPager, show midFile rows 0 = [] from rfl,
      show midPages rows 0 = freshPages rows from funext fun j => if_neg (Nat.not_lt_zero _)]
  simp only [Table.db_close, freshState]
  rw [← hmid0, closeFullLoop_fresh hv hlen (rows.length / ROWS_PER_PAGE) 0
    (Nat.zero_add _)]
  dsimp only
  by_cases hmod : rows.length % ROWS_PER_PAGE = 0
  · rw [if_neg (by rw [hmod]; exact lt_irrefl 0)]
    dsimp only
    rw [clearLoop_all]
    dsimp only [midPager]
    have hchunk : chunk rows (rows.length / ROWS_PER_PAGE) = [] := by
      rw [chunk, List.drop_eq_nil_of_le
        (by rw [ROWS_PER_PAGE_eq]; rw [ROWS_PER_PAGE_eq] at hmod; omega), List.take_nil]
    have hcf : closeFile rows = midFile rows (rows.length / ROWS_PER_PAGE) := by
      rw [show closeFile rows = midFile rows (rows.length / ROWS_PER_PAGE) ++
        ((chunk rows (rows.length / ROWS_PER_PAGE)).map serBytes).flatten from rfl,
        hchunk]
      simp
    rw [hcf]
  · rw [if_pos (by omega)]
    have hfp100 : rows.length / ROWS_PER_PAGE < TABLE_MAX_PAGES := by
      have hn1400 : rows.length ≤ 1400 := by rw [TABLE_MAX_ROWS_eq] at hlen; exact hlen
      rw [ROWS_PER_PAGE_eq, TABLE_MAX_PAGES_eq]
      rw [ROWS_PER_PAGE_eq] at hmod
      omega
    have hpg : midPages rows (rows.length / ROWS_PER_PAGE)
        ⟨rows.length / ROWS_PER_PAGE, hfp100⟩ =
        some (pageOfRows (chunk rows (rows.length / ROWS_PER_PAGE))) := by
      show (if rows.length / ROWS_PER_PAGE < rows.length / ROWS_PER_PAGE then none
        else freshPages rows ⟨rows.length / ROWS_PER_PAGE, hfp100⟩) = _
      rw [if_neg (lt_irrefl _)]
      show (if ROWS_PER_PAGE * (rows.length / ROWS_PER_PAGE) < rows.length then
        some (pageOfRows (chunk rows (rows.length / ROWS_PER_PAGE))) else none) = _
      rw [if_pos (by rw [ROWS_PER_PAGE_eq]; rw [ROWS_PER_PAGE_eq] at hmod; omega)]
    rw [show Pager.pageAt (midPager rows (rows.length / ROWS_PER_PAGE))
          (rows.length / ROWS_PER_PAGE) =
        .ok (some (pageOfRows (chunk rows (rows.length / ROWS_PER_PAGE)))) from by
      rw [Pager.pageAt, dif_pos hfp100]; dsimp only [midPager]
      exact congrArg Except.ok hpg]
    dsimp only
    have hclen : (chunk rows (rows.length / ROWS_PER_PAGE)).length =
        rows.length % ROWS_PER_PAGE := by
      rw [chunk_length (by rw [ROWS_PER_PAGE_eq]; omega) (by rw [ROWS_PER_PAGE_eq]; omega),
        ROWS_PER_PAGE_eq]
      rw [ROWS_PER_PAGE_eq] at hmod
      omega
    rw [show Pager.flush (midPager rows (rows.length / ROWS_PER_PAGE))
          (rows.length / ROWS_PER_PAGE) (rows.length % ROWS_PER_PAGE * ROW_SIZE) =
        .ok (Pager.mk (closeFile rows) 0 (midPages rows (rows.length / ROWS_PER_PAGE)))
        from by
      rw [Pager.flush, Pager.pageAt, dif_pos hfp100]
      dsimp only [midPager]
      rw [hpg]
      dsimp only
      rw [show rows.length % ROWS_PER_PAGE * ROW_SIZE =
        ROW_SIZE * (chunk rows (rows.length / ROWS_PER_PAGE)).length from by
          rw [hclen, Nat.mul_comm]]
      rw [pageOfRows_take (chunk_valid hv _)]
      rw [show rows.length / ROWS_PER_PAGE * PAGE_SIZE =
        (midFile rows (rows.length / ROWS_PER_PAGE)).length from by
          rw [midFile_length hv]; ring]
      rw [writeFileAt_at_end]
      rfl]
    dsimp only
    rw [clearLoop_all, Pager.evict, dif_pos hfp100]

theorem pageView_resident {t : Table} {n : Nat} (h : n < TABLE_MAX_PAGES)
    {pg : List Nat} (hres : t.pager.pages ⟨n, h⟩ = some pg) : t.pageView n = pg := by
  rw [Table.pageView, dif_pos h, hres]

theorem pageView_empty {t : Table} {n : Nat} (h : n < TABLE_MAX_PAGES)
    (hres : t.pager.pages ⟨n, h⟩ = none) : t.pageView n = t.pager.pageLoad n := by
  rw [Table.pageView, dif_pos h, hres]

theorem pageView_big {t : Table} {n : Nat} (h : ¬ n < TABLE_MAX_PAGES) :
    t.pageView n = t.pager.pageLoad n := by
  rw [Table.pageView, dif_neg h]

theorem pageView_length (t : Table) (n : Nat) (hwf : t.pager.WF) :
    (t.pageView n).length = PAGE_SIZE := by
  rw [Table.pageView]
  by_cases h : n < TABLE_MAX_PAGES
  · rw [dif_pos h]
    cases hres : t.pager.pages ⟨n, h⟩ with
    | some pg => exact hwf ⟨n, h⟩ pg hres
    | none => exact pageLoad_length ..
  · rw [dif_neg h]; exact pageLoad_length ..

/-- One successful `get_page_mut` through a `Table`, described through
`pageView`: the yielded buffer is the page view, the view of every page is
unchanged, and the only cache change is that page `n` may have just become
resident (with exactly its view as content). -/
theorem pageLoad_congr {p q : Pager} {n : Nat} (hf : p.file = q.file)
    (hfl : p.file_length = q.file_length) : p.pageLoad n = q.pageLoad n := by
  rw [Pager.pageLoad, Pager.pageLoad, hf, hfl]

theorem table_get_page_view {t : Table} {n : Nat} (h : n < TABLE_MAX_PAGES) :
    ∃ t', t.get_page_mut n = .ok (t.pageView n, t') ∧
      t'.num_rows = t.num_rows ∧
      t'.pager.file = t.pager.file ∧
      t'.pager.file_length = t.pager.file_length ∧
      (∀ j, t'.pager.pages j = t.pager.pages j ∨
        (t.pager.pages j = none ∧ j.val = n ∧
          t'.pager.pages j = some (t.pageView n))) ∧
      (∀ m, t'.pageView m = t.pageView m) := by
  cases hres : t.pager.pages ⟨n, h⟩ with
  | some pg =>
    refine ⟨t, ?_, rfl, rfl, rfl, fun j => Or.inl rfl, fun m => rfl⟩
    rw [table_get_page_resident h hres, pageView_resident h hres]
  | none =>
    refine ⟨{ t with pager := { t.pager with
      pages := Function.update t.pager.pages ⟨n, h⟩ (some (t.pager.pageLoad n)) } },
      ?_, rfl, rfl, rfl, ?_, ?_⟩
    · rw [table_get_page_empty h hres, pageView_empty h hres]
    · intro j
      by_cases hj : j = (⟨n, h⟩ : Fin TABLE_MAX_PAGES)
      · subst hj
        refine Or.inr ⟨hres, rfl, ?_⟩
        dsimp only
        rw [Function.update_same, pageView_empty h hres]
      · refine Or.inl ?_
        dsimp only
        exact Function.update_noteq hj _ _
    · intro m
      by_cases hm : m < TABLE_MAX_PAGES
      · by_cases hmn : m = n
        · subst hmn
          rw [pageView_resident hm (by dsimp only; exact Function.update_same ..),
            pageView_empty hm hres]
        · rw [Table.pageView, Table.pageView, dif_pos hm, dif_pos hm]
          dsimp only
          rw [Function.update_noteq (fun hc => hmn (congrArg Fin.val hc))]
          cases hc : t.pager.pages ⟨m, hm⟩ with
          | some pg => rfl
          | none => exact pageLoad_congr rfl rfl
      · rw [pageView_big hm, pageView_big hm]
        exact pageLoad_congr rfl rfl

/-- A successful `get_page_mut` implies the page number was in bounds, and is
then described by `table_get_page_view`. -/
theorem table_get_page_ok {t : Table} {n : Nat} {pg : List Nat} {t1 : Table}
    (hg : t.get_page_mut n = .ok (pg, t1)) :
    ∃ h : n < TABLE_MAX_PAGES, pg = t.pageView n ∧
      t1.num_rows = t.num_rows ∧
      t1.pager.file = t.pager.file ∧
      t1.pager.file_length = t.pager.file_length ∧
      (∀ j, t1.pager.pages j = t.pager.pages j ∨
        (t.pager.pages j = none ∧ j.val = n ∧
          t1.pager.pages j = some (t.pageView n))) ∧
      (∀ m, t1.pageView m = t.pageView m) := by
  by_cases h : n < TABLE_MAX_PAGES
  · obtain ⟨t', hget, hnum, hfile, hfl, hpages, hview⟩ := @table_get_page_view t _ h
    rw [hget] at hg
    obtain ⟨hpg, ht⟩ : pg = t.pageView n ∧ t' = t1 := by
      have := hg
      injection this with h1
      injection h1 with h2 h3
      exact ⟨h2.symm, h3⟩
    subst ht
    exact ⟨h, hpg, hnum, hfile, hfl, hpages, hview⟩
  · exfalso
    rw [TABLE_MAX_PAGES_eq] at h
    rcases Nat.lt_or_ge 100 n with hgt | hge
    · rw [Table.get_page_mut, get_page_mut_big hgt] at hg
      cases hg
    · rw [show n = 100 by omega, Table.get_page_mut, get_page_mut_100] at hg
      cases hg

theorem rowBytes_congr {t1 t : Table} (h : ∀ m, t1.pageView m = t.pageView m) (k : Nat) :
    t1.rowBytes k = t.rowBytes k := by
  rw [Table.rowBytes, Table.rowBytes, h]

/-- A full run of the select loop on a table with at most 1400 rows: it
succeeds and yields, in row order, the decode of each row slot's 291 bytes;
the final state differs only by pages having become resident. -/
theorem selectLoop_run : ∀ (c : Nat) (t : Table), t.num_rows ≤ TABLE_MAX_ROWS →
    ∀ i, i + c = t.num_rows →
    ∃ t', selectLoop t i c =
        .ok ((List.range' i c).map (fun k => Row.deserialize_row (t.rowBytes k)), t') ∧
      t'.num_rows = t.num_rows ∧ t'.pager.file = t.pager.file ∧
      t'.pager.file_length = t.pager.file_length ∧
      (∀ j, t'.pager.pages j = t.pager.pages j ∨
        (t.pager.pages j = none ∧ t'.pager.pages j = some (t.pageView j.val))) ∧
      (∀ m, t'.pageView m = t.pageView m) := by
  intro c
  induction c with
  | zero =>
    intro t hb i hic
    exact ⟨t, by rw [selectLoop]; rfl, rfl, rfl, rfl, fun j => Or.inl rfl, fun m => rfl⟩
  | succ c ih =>
    intro t hb i hic
    have hb1400 : t.num_rows ≤ 1400 := by rw [TABLE_MAX_ROWS_eq] at hb; exact hb
    have hpage : i / ROWS_PER_PAGE < TABLE_MAX_PAGES := by
      rw [ROWS_PER_PAGE_eq, TABLE_MAX_PAGES_eq]; omega
    obtain ⟨t1, hget, hnum1, hfile1, hfl1, hpages1, hview1⟩ :=
      @table_get_page_view t _ hpage
    rw [selectLoop, hget]
    dsimp only
    obtain ⟨t2, hrec, hnum2, hfile2, hfl2, hpages2, hview2⟩ :=
      ih t1 (by rw [hnum1]; exact hb) (i + 1) (by rw [hnum1]; omega)
    have hfun : (fun k => Row.deserialize_row (t1.rowBytes k)) =
        (fun k => Row.deserialize_row (t.rowBytes k)) :=
      funext fun k => by rw [rowBytes_congr hview1]
    rw [hfun] at hrec
    rw [hrec]
    dsimp only
    refine ⟨t2, ?_, by rw [hnum2, hnum1], by rw [hfile2, hfile1],
      by rw [hfl2, hfl1], ?_, fun m => by rw [hview2, hview1]⟩
    · rw [List.range'_succ, List.map_cons]
      rfl
    · intro j
      rcases hpages2 j with h2eq | ⟨h1none, h2some⟩
      · rcases hpages1 j with h1eq | ⟨hnone, hjv, hsome⟩
        · exact Or.inl (h2eq.trans h1eq)
        · refine Or.inr ⟨hnone, ?_⟩
          rw [h2eq, hsome, hjv]
      · rcases hpages1 j with h1eq | ⟨hnone, hjv, hsome⟩
        · refine Or.inr ⟨h1eq ▸ h1none, ?_⟩
          rw [h2some, hview1]
        · rw [hsome] at h1none
          cases h1none

/-- Any successful run of the select loop (no bound on `num_rows` needed)
leaves `num_rows`, the file, and every previously resident page buffer
untouched; it only makes pages resident, always with their view content. -/
theorem selectLoop_frame : ∀ (c : Nat) (t : Table) (i : Nat) (out : List (Option Row))
    (t' : Table), selectLoop t i c = .ok (out, t') →
    t'.num_rows = t.num_rows ∧ t'.pager.file = t.pager.file ∧
    t'.pager.file_length = t.pager.file_length ∧
    (∀ j, t'.pager.pages j = t.pager.pages j ∨
      (t.pager.pages j = none ∧ t'.pager.pages j = some (t.pageView j.val))) ∧
    (∀ m, t'.pageView m = t.pageView m) := by
  intro c
  induction c with
  | zero =>
    intro t i out t' h
    rw [selectLoop] at h
    obtain ⟨-, ht⟩ : ([] : List (Option Row)) = out ∧ t = t' := by
      injection h with h1
      injection h1 with h2 h3
      exact ⟨h2, h3⟩
    subst ht
    exact ⟨rfl, rfl, rfl, fun j => Or.inl rfl, fun m => rfl⟩
  | succ c ih =>
    intro t i out t' h
    rw [selectLoop] at h
    cases hg : t.get_page_mut (i / ROWS_PER_PAGE) with
    | error e => rw [hg] at h; cases h
    | ok v =>
      obtain ⟨pg, t1⟩ := v
      rw [hg] at h
      dsimp only at h
      cases hr : selectLoop t1 (i + 1) c with
      | error e => rw [hr] at h; cases h
      | ok v2 =>
        obtain ⟨out2, t2⟩ := v2
        rw [hr] at h
        dsimp only at h
        obtain ⟨-, ht⟩ : _ ∧ t2 = t' := by
          injection h with h1
          injection h1 with h2 h3
          exact ⟨h2, h3⟩
        subst ht
        obtain ⟨hlt, hpg, hnum1, hfile1, hfl1, hpages1, hview1⟩ := table_get_page_ok hg
        obtain ⟨hnum2, hfile2, hfl2, hpages2, hview2⟩ := ih t1 (i + 1) out2 t2 hr
        refine ⟨hnum2.trans hnum1, hfile2.trans hfile1, hfl2.trans hfl1, ?_,
          fun m => (hview2 m).trans (hview1 m)⟩
        intro j
        rcases hpages2 j with h2eq | ⟨h1none, h2some⟩
        · rcases hpages1 j with h1eq | ⟨hnone, hjv, hsome⟩
          · exact Or.inl (h2eq.trans h1eq)
          · refine Or.inr ⟨hnone, ?_⟩
            rw [h2eq, hsome, hjv]
        · rcases hpages1 j with h1eq | ⟨hnone, hjv, hsome⟩
          · refine Or.inr ⟨h1eq ▸ h1none, ?_⟩
            rw [h2some, hview1]
          · rw [hsome] at h1none
            cases h1none

/-- `execute_select` on a table with at most 1400 rows succeeds and yields
the decode of each row slot, in row order. -/
theorem execute_select_run {t : Table} (hb : t.num_rows ≤ TABLE_MAX_ROWS) :
    ∃ t', execute_select t =
        .ok (.Success,
          (List.range t.num_rows).map (fun k => Row.deserialize_row (t.rowBytes k)), t') ∧
      t'.num_rows = t.num_rows ∧ t'.pager.file = t.pager.file ∧
      t'.pager.file_length = t.pager.file_length ∧
      (∀ j, t'.pager.pages j = t.pager.pages j ∨
        (t.pager.pages j = none ∧ t'.pager.pages j = some (t.pageView j.val))) := by
  obtain ⟨t', hloop, hnum, hfile, hfl, hpages, hview⟩ :=
    selectLoop_run t.num_rows t hb 0 (Nat.zero_add _)
  refine ⟨t', ?_, hnum, hfile, hfl, hpages⟩
  rw [execute_select, hloop, List.range_eq_range']

/-- If `execute_select` completes, the result is `Success` and the logical
state is untouched. -/
theorem execute_select_ok {t : Table} {res : ExecuteResult} {out : List (Option Row)}
    {t' : Table} (h : execute_select t = .ok (res, out, t')) :
    res = .Success ∧ t'.num_rows = t.num_rows ∧ t'.pager.file = t.pager.file ∧
    t'.pager.file_length = t.pager.file_length ∧
    (∀ j, t'.pager.pages j = t.pager.pages j ∨
      (t.pager.pages j = none ∧ t'.pager.pages j = some (t.pageView j.val))) ∧
    (∀ m, t'.pageView m = t.pageView m) := by
  rw [execute_select] at h
  cases hl : selectLoop t 0 t.num_rows with
  | error e => rw [hl] at h; cases h
  | ok v =>
    obtain ⟨out2, t2⟩ := v
    rw [hl] at h
    dsimp only at h
    obtain ⟨hres, houtt⟩ : ExecuteResult.Success = res ∧ (out2, t2) = (out, t') := by
      injection h with h1
      injection h1 with h2 h3
      exact ⟨h2, h3⟩
    obtain ⟨-, ht⟩ : out2 = out ∧ t2 = t' := by
      injection houtt with h4 h5
      exact ⟨h4, h5⟩
    subst ht
    obtain ⟨hnum, hfile, hfl, hpages, hview⟩ := selectLoop_frame t.num_rows t 0 out2 t2 hl
    exact ⟨hres.symm, hnum, hfile, hfl, hpages, hview⟩

/-- If some row index visited by the loop maps to page 100 or beyond, the
loop dies with a fatal error (out-of-bounds exit or index panic). -/
theorem selectLoop_err : ∀ (c : Nat) (t : Table) (i : Nat),
    (∃ k, k < c ∧ 100 ≤ (i + k) / ROWS_PER_PAGE) →
    ∃ e, selectLoop t i c = .error e := by
  intro c
  induction c with
  | zero =>
    intro t i ⟨k, hk, _⟩
    cases hk
  | succ c ih =>
    intro t i ⟨k, hk, hbig⟩
    by_cases hi : 100 ≤ i / ROWS_PER_PAGE
    · have herr : ∃ e, t.get_page_mut (i / ROWS_PER_PAGE) = .error e := by
        rcases Nat.lt_or_ge 100 (i / ROWS_PER_PAGE) with hgt | hge
        · exact ⟨.exitPageBound, by rw [Table.get_page_mut, get_page_mut_big hgt]⟩
        · exact ⟨.panicIndex, by
            rw [show i / ROWS_PER_PAGE = 100 by omega, Table.get_page_mut,
              get_page_mut_100]⟩
      obtain ⟨e, he⟩ := herr
      exact ⟨e, by rw [selectLoop, he]⟩
    · have hk0 : k ≠ 0 := by
        intro hc
        subst hc
        rw [Nat.add_zero] at hbig
        exact hi hbig
      have hpage : i / ROWS_PER_PAGE < TABLE_MAX_PAGES := by
        rw [TABLE_MAX_PAGES_eq]; omega
      obtain ⟨t1, hget, -, -, -, -, -⟩ := @table_get_page_view t _ hpage
      obtain ⟨e, he⟩ := ih t1 (i + 1) ⟨k - 1, by omega,
        by rw [show i + 1 + (k - 1) = i + k by omega]; exact hbig⟩
      exact ⟨e, by rw [selectLoop, hget]; dsimp only; rw [he]⟩

theorem slice_append_left {l1 l2 : List Nat} {off len : Nat} (h : off + len ≤ l1.length) :
    slice (l1 ++ l2) off len = slice l1 off len := by
  rw [slice, slice, List.drop_append_eq_append_drop,
    List.take_append_eq_append_take, List.length_drop,
    show len - (l1.length - off) = 0 from by omega]
  simp

theorem slice_append_right {l1 l2 : List Nat} {len : Nat} :
    slice (l1 ++ l2) l1.length len = l2.take len := by
  rw [slice, List.drop_left]

theorem closeFile_length {rows : List Row} (hv : ∀ x ∈ rows, ValidRow x) :
    (closeFile rows).length =
      PAGE_SIZE * (rows.length / ROWS_PER_PAGE) +
        ROW_SIZE * (rows.length % ROWS_PER_PAGE) := by
  rw [show closeFile rows = midFile rows (rows.length / ROWS_PER_PAGE) ++
      ((chunk rows (rows.length / ROWS_PER_PAGE)).map serBytes).flatten from rfl]
  rw [List.length_append, midFile_length hv, serFlat_length (chunk_valid hv _)]
  rw [chunk_length (by rw [ROWS_PER_PAGE_eq]; omega) (by rw [ROWS_PER_PAGE_eq]; omega)]
  rw [ROWS_PER_PAGE_eq]
  rw [show rows.length - 14 * (rows.length / 14) = rows.length % 14 from by omega]

theorem slice_midFile {rows : List Row} (hv : ∀ x ∈ rows, ValidRow x) :
    ∀ (m j : Nat), j < m →
      slice (midFile rows m) (j * PAGE_SIZE) PAGE_SIZE = pageOfRows (chunk rows j) := by
  intro m
  induction m with
  | zero => intro j hj; cases hj
  | succ m ih =>
    intro j hj
    rw [midFile_succ]
    by_cases hjm : j < m
    · rw [slice_append_left (by
        rw [midFile_length hv]
        rw [PAGE_SIZE_eq]
        omega)]
      exact ih j hjm
    · have hje : j = m := by omega
      subst hje
      rw [show j * PAGE_SIZE = (midFile rows j).length from by
        rw [midFile_length hv]; ring]
      rw [slice_append_right, List.take_of_length_le
        (le_of_eq (pageOfRows_length (chunk_valid hv j) (chunk_le rows j)))]

/-- Loading page `p` of the file written by `db_close` from the fresh-insert
state recovers exactly the packed page image of that page's rows. -/
theorem loadPage_closeFile {rows : List Row} (hv : ∀ x ∈ rows, ValidRow x)
    {p : Nat} (hp : ROWS_PER_PAGE * p < rows.length) :
    loadPage (closeFile rows) p = pageOfRows (chunk rows p) := by
  have hplefp : p ≤ rows.length / ROWS_PER_PAGE := by
    rw [ROWS_PER_PAGE_eq]
    rw [ROWS_PER_PAGE_eq] at hp
    omega
  rw [loadPage]
  by_cases hfull : p < rows.length / ROWS_PER_PAGE
  · have hs : slice (closeFile rows) (p * PAGE_SIZE) PAGE_SIZE =
        pageOfRows (chunk rows p) := by
      rw [show closeFile rows = midFile rows (rows.length / ROWS_PER_PAGE) ++
        ((chunk rows (rows.length / ROWS_PER_PAGE)).map serBytes).flatten from rfl]
      rw [slice_append_left (by
        rw [midFile_length hv, PAGE_SIZE_eq, ROWS_PER_PAGE_eq]
        rw [ROWS_PER_PAGE_eq] at hfull
        omega)]
      exact slice_midFile hv _ p hfull
    rw [hs, pageOfRows_length (chunk_valid hv p) (chunk_le rows p)]
    simp
  · have hpe : p = rows.length / ROWS_PER_PAGE := by omega
    subst hpe
    have hr0 : rows.length % ROWS_PER_PAGE ≠ 0 := by
      rw [ROWS_PER_PAGE_eq]
      rw [ROWS_PER_PAGE_eq] at hp
      omega
    have hclen : (chunk rows (rows.length / ROWS_PER_PAGE)).length =
        rows.length % ROWS_PER_PAGE := by
      rw [chunk_length (by rw [ROWS_PER_PAGE_eq]; omega) (by rw [ROWS_PER_PAGE_eq]; omega),
        ROWS_PER_PAGE_eq]
      rw [ROWS_PER_PAGE_eq] at hr0
      omega
    have hs : slice (closeFile rows) (rows.length / ROWS_PER_PAGE * PAGE_SIZE) PAGE_SIZE =
        ((chunk rows (rows.length / ROWS_PER_PAGE)).map serBytes).flatten := by
      rw [show closeFile rows = midFile rows (rows.length / ROWS_PER_PAGE) ++
        ((chunk rows (rows.length / ROWS_PER_PAGE)).map serBytes).flatten from rfl]
      rw [show rows.length / ROWS_PER_PAGE * PAGE_SIZE =
        (midFile rows (rows.length / ROWS_PER_PAGE)).length from by
          rw [midFile_length hv]; ring]
      rw [slice_append_right]
      exact List.take_of_length_le (by
        rw [serFlat_length (chunk_valid hv _), hclen, ROW_SIZE_eq, PAGE_SIZE_eq]
        rw [ROWS_PER_PAGE_eq] at hclen ⊢
        omega)
    rw [hs, serFlat_length (chunk_valid hv _), hclen]
    rw [pageOfRows, hclen]

theorem reopen_pageView {rows : List Row} (hv : ∀ x ∈ rows, ValidRow x)
    {p : Nat} (hp : ROWS_PER_PAGE * p < rows.length) (hp100 : p < TABLE_MAX_PAGES) :
    (Table.db_open (closeFile rows)).pageView p = pageOfRows (chunk rows p) := by
  rw [pageView_empty hp100 rfl]
  show Pager.pageLoad (Pager.pager_open (closeFile rows)) p = _
  rw [Pager.pageLoad]
  dsimp only [Pager.pager_open]
  have hple : p ≤ (closeFile rows).length / PAGE_SIZE := by
    rw [closeFile_length hv, ROWS_PER_PAGE_eq, PAGE_SIZE_eq, ROW_SIZE_eq]
    rw [ROWS_PER_PAGE_eq] at hp
    omega
  rw [if_pos (le_trans hple (Nat.le_add_right ..))]
  exact loadPage_closeFile hv hp

theorem reopen_num_rows {rows : List Row} (hv : ∀ x ∈ rows, ValidRow x)
    (h195 : rows.length ≤ 195) :
    (Table.db_open (closeFile rows)).num_rows = rows.length := by
  show (closeFile rows).length / ROW_SIZE = rows.length
  rw [closeFile_length hv, ROW_SIZE_eq, PAGE_SIZE_eq, ROWS_PER_PAGE_eq]
  omega

theorem reopen_rowBytes {rows : List Row} (hv : ∀ x ∈ rows, ValidRow x)
    {k : Nat} (hk : k < rows.length) (hk1400 : k < TABLE_MAX_ROWS) :
    (Table.db_open (closeFile rows)).rowBytes k = serBytes (rows.get ⟨k, hk⟩) := by
  have hp100 : k / ROWS_PER_PAGE < TABLE_MAX_PAGES := by
    rw [ROWS_PER_PAGE_eq, TABLE_MAX_PAGES_eq]
    rw [TABLE_MAX_ROWS_eq] at hk1400
    omega
  rw [Table.rowBytes]
  rw [reopen_pageView hv (show ROWS_PER_PAGE * (k / ROWS_PER_PAGE) < rows.length by
    rw [ROWS_PER_PAGE_eq]; omega) hp100]
  rw [show (k % ROWS_PER_PAGE) * ROW_SIZE = ROW_SIZE * (k % ROWS_PER_PAGE) from
    Nat.mul_comm ..]
  have hkc : k % ROWS_PER_PAGE < (chunk rows (k / ROWS_PER_PAGE)).length := by
    rw [chunk, List.length_take, List.length_drop, ROWS_PER_PAGE_eq]
    omega
  rw [slice_pageOfRows (chunk_valid hv _) (chunk_le ..) hkc]
  have hidx : ROWS_PER_PAGE * (k / ROWS_PER_PAGE) + k % ROWS_PER_PAGE = k := by
    rw [ROWS_PER_PAGE_eq]; omega
  have hget : (chunk rows (k / ROWS_PER_PAGE)).get ⟨k % ROWS_PER_PAGE, hkc⟩ =
      rows.get ⟨k, hk⟩ := by
    simp only [chunk, List.get_eq_getElem, List.getElem_take, List.getElem_drop, hidx]
  rw [hget]

/-- The full pipeline of C1 for at most 195 rows: reopening and scanning
yields exactly the inserted rows (decoded with their zero padding). -/
theorem roundTrip_output {rows : List Row} (hv : ∀ x ∈ rows, ValidRow x)
    (h195 : rows.length ≤ 195) :
    roundTrip rows = .ok (rows.map (fun r => some (decodedRow r))) := by
  rw [roundTrip]
  rw [insertAll_fresh (by rw [TABLE_MAX_ROWS_eq]; omega) hv]
  dsimp only
  rw [db_close_fresh hv (by rw [TABLE_MAX_ROWS_eq]; omega)]
  dsimp only
  have hnum : (Table.db_open (closeFile rows)).num_rows = rows.length :=
    reopen_num_rows hv h195
  obtain ⟨t', hsel, -, -, -, -⟩ :=
    @execute_select_run (Table.db_open (closeFile rows))
      (by rw [hnum, TABLE_MAX_ROWS_eq]; omega)
  rw [hsel]
  dsimp only
  have hlist : (List.range (Table.db_open (closeFile rows)).num_rows).map
      (fun k => Row.deserialize_row ((Table.db_open (closeFile rows)).rowBytes k)) =
      rows.map (fun r => some (decodedRow r)) := by
    rw [hnum]
    apply List.ext_getElem
    · rw [List.length_map, List.length_range, List.length_map]
    · intro i h1 h2
      rw [List.getElem_map, List.getElem_range, List.getElem_map]
      have hi : i < rows.length := by
        rw [List.length_map, List.length_range] at h1; exact h1
      rw [show (Table.db_open (closeFile rows)).rowBytes i = serBytes (rows.get ⟨i, hi⟩)
        from reopen_rowBytes hv hi (by rw [TABLE_MAX_ROWS_eq]; omega)]
      have hvr := hv (rows.get ⟨i, hi⟩) (List.get_mem ..)
      rw [deserialize_serBytes hvr.1 hvr.2.1 hvr.2.2.2.1 hvr.2.2.1 hvr.2.2.2.2]
      rfl
  rw [hlist]

/-- The full flush loop of `db_close` cannot die while its indices stay below
100. -/
theorem closeFullLoop_ok : ∀ (c : Nat) (p : Pager) (i : Nat),
    i + c ≤ TABLE_MAX_PAGES → ∃ p', closeFullLoop p i c = .ok p' ∧
      p'.file_length = p.file_length := by
  intro c
  induction c with
  | zero => intro p i h; exact ⟨p, rfl, rfl⟩
  | succ c ih =>
    intro p i h
    have hi : i < TABLE_MAX_PAGES := by rw [TABLE_MAX_PAGES_eq] at h ⊢; omega
    rw [closeFullLoop, Pager.pageAt, dif_pos hi]
    cases hres : p.pages ⟨i, hi⟩ with
    | none =>
      dsimp only
      exact ih p (i + 1) (by omega)
    | some pg =>
      dsimp only
      rw [Pager.flush, Pager.pageAt, dif_pos hi, hres]
      dsimp only
      obtain ⟨p', hp', hfl⟩ := ih (Pager.evict
        (Pager.mk (writeFileAt p.file (i * PAGE_SIZE) (pg.take PAGE_SIZE))
          p.file_length p.pages) i) (i + 1) (by omega)
      refine ⟨p', hp', ?_⟩
      rw [hfl, Pager.evict]
      by_cases hd : i < TABLE_MAX_PAGES
      · rw [dif_pos hd]
      · rw [dif_neg hd]

/-- `db_close` on any table with at most 1400 rows completes, leaves
`num_rows` unchanged, and evicts every page slot. -/
theorem db_close_ok {t : Table} (hb : t.num_rows ≤ TABLE_MAX_ROWS) :
    ∃ t', t.db_close = .ok t' ∧ t'.num_rows = t.num_rows ∧
      (∀ j, t'.pager.pages j = none) := by
  have hb1400 : t.num_rows ≤ 1400 := by rw [TABLE_MAX_ROWS_eq] at hb; exact hb
  have hfp : t.num_rows / ROWS_PER_PAGE ≤ 100 := by rw [ROWS_PER_PAGE_eq]; omega
  rw [Table.db_close]
  obtain ⟨p1, hp1, -⟩ := closeFullLoop_ok (t.num_rows / ROWS_PER_PAGE) t.pager 0
    (by rw [TABLE_MAX_PAGES_eq]; omega)
  rw [hp1]
  dsimp only
  by_cases hmod : t.num_rows % ROWS_PER_PAGE > 0
  · rw [if_pos hmod]
    have hfp100 : t.num_rows / ROWS_PER_PAGE < TABLE_MAX_PAGES := by
      rw [TABLE_MAX_PAGES_eq]
      rw [ROWS_PER_PAGE_eq] at hmod ⊢
      omega
    rw [Pager.pageAt, dif_pos hfp100]
    cases hres : p1.pages ⟨t.num_rows / ROWS_PER_PAGE, hfp100⟩ with
    | none =>
      dsimp only
      refine ⟨_, rfl, rfl, fun j => ?_⟩
      rw [clearLoop_all]
    | some pg =>
      dsimp only
      rw [Pager.flush, Pager.pageAt, dif_pos hfp100, hres]
      dsimp only
      refine ⟨_, rfl, rfl, fun j => ?_⟩
      rw [clearLoop_all]
  · rw [if_neg hmod]
    dsimp only
    refine ⟨_, rfl, rfl, fun j => ?_⟩
    rw [clearLoop_all]

/-- The full flush loop does nothing on an all-empty cache (all its indices
in bounds). -/
theorem closeFullLoop_none : ∀ (c : Nat) (p : Pager) (i : Nat),
    i + c ≤ TABLE_MAX_PAGES → (∀ j, p.pages j = none) →
    closeFullLoop p i c = .ok p := by
  intro c
  induction c with
  | zero => intro p i h hnone; rfl
  | succ c ih =>
    intro p i h hnone
    have hi : i < TABLE_MAX_PAGES := by rw [TABLE_MAX_PAGES_eq] at h ⊢; omega
    rw [closeFullLoop, Pager.pageAt, dif_pos hi, hnone]
    dsimp only
    exact ih p (i + 1) (by omega) hnone

theorem db_open_num_rows (f : List Nat) :
    (Table.db_open f).num_rows = f.length / ROW_SIZE := rfl

/-- Closing a reopened table with 1401 rows dies with the index panic on
`pages[100]` in the partial-page branch. -/
theorem db_close_1401 :
    (Table.db_open (List.replicate 407691 0)).db_close = .error .panicIndex := by
  have hnum : (Table.db_open (List.replicate 407691 0)).num_rows = 1401 := by
    rw [db_open_num_rows, List.length_replicate, ROW_SIZE_eq]
  rw [Table.db_close, hnum]
  rw [show (1401 : Nat) / ROWS_PER_PAGE = 100 from by rw [ROWS_PER_PAGE_eq]]
  rw [closeFullLoop_none 100 _ 0 (by rw [TABLE_MAX_PAGES_eq]) (fun j => rfl)]
  dsimp only
  rw [if_pos (by rw [ROWS_PER_PAGE_eq]; norm_num)]
  rw [Pager.pageAt, dif_neg (by rw [TABLE_MAX_PAGES_eq]; omega)]

/-- Composing the three stages of the persistence pipeline. -/
theorem roundTrip_eq {rows : List Row} {res : List ExecuteResult} {t1 : Table}
    (h1 : insertAll (Table.db_open []) rows = .ok (res, t1)) {t2 : Table}
    (h2 : t1.db_close = .ok t2) {r : ExecuteResult} {out : List (Option Row)} {t3 : Table}
    (h3 : execute_select (Table.db_open t2.pager.file) = .ok (r, out, t3)) :
    roundTrip rows = .ok out := by
  rw [roundTrip, h1]
  dsimp only
  rw [h2]
  dsimp only
  rw [h3]

theorem roundTripLen_196 : roundTripLen rows196 = .ok 197 := by
  have hv : ∀ x ∈ rows196, ValidRow x := by
    intro x hx
    rw [List.eq_of_mem_replicate hx]
    exact ⟨by decide, by decide, rfl, by decide, rfl⟩
  have hlen : rows196.length = 196 := List.length_replicate ..
  have hnum : (Table.db_open (closeFile rows196)).num_rows = 197 := by
    rw [db_open_num_rows, closeFile_length hv, hlen, ROW_SIZE_eq, PAGE_SIZE_eq,
      ROWS_PER_PAGE_eq]
  obtain ⟨t', hsel, -, -, -, -⟩ :=
    @execute_select_run (Table.db_open (closeFile rows196))
      (by rw [hnum, TABLE_MAX_ROWS_eq]; omega)
  rw [roundTripLen,
    roundTrip_eq (insertAll_fresh (by rw [hlen, TABLE_MAX_ROWS_eq]; omega) hv)
      (db_close_fresh hv (by rw [hlen, TABLE_MAX_ROWS_eq]; omega)) hsel]
  dsimp only [Except.map]
  rw [List.length_map, List.length_range, hnum]

theorem setPage_num_rows (t : Table) (n : Nat) (pg : List Nat) :
    (t.setPage n pg).num_rows = t.num_rows := by
  rw [Table.setPage]
  split <;> rfl

theorem setPage_file (t : Table) (n : Nat) (pg : List Nat) :
    (t.setPage n pg).pager.file = t.pager.file := by
  rw [Table.setPage]
  split <;> rfl

theorem setPage_pages_same (t : Table) {n : Nat} (h : n < TABLE_MAX_PAGES)
    (pg : List Nat) : (t.setPage n pg).pager.pages ⟨n, h⟩ = some pg := by
  rw [Table.setPage, dif_pos h]
  exact Function.update_same ..

theorem setPage_pages_other (t : Table) {n : Nat} (h : n < TABLE_MAX_PAGES)
    (pg : List Nat) {j : Fin TABLE_MAX_PAGES} (hj : j ≠ ⟨n, h⟩) :
    (t.setPage n pg).pager.pages j = t.pager.pages j := by
  rw [Table.setPage, dif_pos h]
  exact Function.update_noteq hj ..

/-! ### Claim C3 -/

/-- C3: `execute_insert` on a full table (`num_rows ≥ 1400`) reports
`TableFull` and leaves the table completely unchanged; on a non-full table it
writes the 291 serialized bytes into the end-of-table row's page at the row's
offset, increments `num_rows` by exactly one, touches no other page slot and
not the file, and reports `Success`; and from a fresh table exactly 1400
inserts succeed while the 1401st reports `TableFull` leaving the count at
1400. -/
theorem claim_C3_insert_capacity :
    (∀ (t : Table) (r : Row), t.num_rows ≥ TABLE_MAX_ROWS →
        execute_insert t r = .ok (.TableFull, t)) ∧
    (∀ (t : Table) (r : Row), t.pager.WF → t.num_rows < TABLE_MAX_ROWS → ValidRow r →
      ∃ (t' : Table) (hp : t.num_rows / ROWS_PER_PAGE < TABLE_MAX_PAGES),
        execute_insert t r = .ok (.Success, t') ∧
        t'.num_rows = t.num_rows + 1 ∧
        t'.pager.file = t.pager.file ∧
        t'.pager.pages ⟨t.num_rows / ROWS_PER_PAGE, hp⟩ =
          some (listWrite (t.pageView (t.num_rows / ROWS_PER_PAGE))
            (t.num_rows % ROWS_PER_PAGE * ROW_SIZE) (serBytes r)) ∧
        slice (listWrite (t.pageView (t.num_rows / ROWS_PER_PAGE))
            (t.num_rows % ROWS_PER_PAGE * ROW_SIZE) (serBytes r))
          (t.num_rows % ROWS_PER_PAGE * ROW_SIZE) (serBytes r).length = serBytes r ∧
        (serBytes r).length = ROW_SIZE ∧
        (∀ j, j ≠ (⟨t.num_rows / ROWS_PER_PAGE, hp⟩ : Fin TABLE_MAX_PAGES) →
          t'.pager.pages j = t.pager.pages j)) ∧
    (∀ rows : List Row, rows.length = 1400 → (∀ x ∈ rows, ValidRow x) →
      ∀ extra : Row, ∃ t1 : Table,
        insertAll (Table.db_open []) rows = .ok (List.replicate 1400 .Success, t1) ∧
        t1.num_rows = 1400 ∧
        execute_insert t1 extra = .ok (.TableFull, t1)) := by
  refine ⟨?_, ?_, ?_⟩
  · intro t r h
    rw [execute_insert, if_pos h]
  · intro t r hwf hlt hr
    have hp : t.num_rows / ROWS_PER_PAGE < TABLE_MAX_PAGES := by
      rw [ROWS_PER_PAGE_eq, TABLE_MAX_PAGES_eq]
      rw [TABLE_MAX_ROWS_eq] at hlt
      omega
    obtain ⟨t1, hget, hnum1, hfile1, hfl1, hpages1, hview1⟩ :=
      @table_get_page_view t _ hp
    refine ⟨{ t1.setPage (t.num_rows / ROWS_PER_PAGE)
        (listWrite (t.pageView (t.num_rows / ROWS_PER_PAGE))
          (t.num_rows % ROWS_PER_PAGE * ROW_SIZE) (serBytes r)) with
      num_rows := (t1.setPage (t.num_rows / ROWS_PER_PAGE)
        (listWrite (t.pageView (t.num_rows / ROWS_PER_PAGE))
          (t.num_rows % ROWS_PER_PAGE * ROW_SIZE) (serBytes r))).num_rows + 1 },
      hp, ?_, ?_, ?_, ?_, ?_, validRow_ser_length hr, ?_⟩
    · rw [execute_insert, if_neg (by omega), serialize_of_valid hr]
      dsimp only
      rw [hget]
    · rw [setPage_num_rows, hnum1]
    · rw [setPage_file, hfile1]
    · exact setPage_pages_same t1 hp _
    · refine slice_listWrite_self ?_
      rw [validRow_ser_length hr, pageView_length t _ hwf]
      rw [ROW_SIZE_eq, PAGE_SIZE_eq, ROWS_PER_PAGE_eq]
      omega
    · intro j hj
      rw [setPage_pages_other t1 hp _ hj]
      rcases hpages1 j with h1 | ⟨-, hjv, -⟩
      · exact h1
      · exact absurd (Fin.ext hjv) hj
  · intro rows hl hv extra
    refine ⟨freshState rows, ?_, ?_, ?_⟩
    · have h := @insertAll_fresh rows (by rw [hl, TABLE_MAX_ROWS_eq]) hv
      rw [hl] at h
      exact h
    · show rows.length = 1400
      exact hl
    · rw [execute_insert, show (freshState rows).num_rows = 1400 from hl,
        if_pos (show (1400 : Nat) ≥ TABLE_MAX_ROWS by rw [TABLE_MAX_ROWS_eq])]

theorem claim_C3_insert_capacity_witness :
    (execute_insert (Table.mk (Pager.mk [] 0 (fun _ => none)) 1400)
        { id := 5, username := [97], email := [98] } =
      .ok (.TableFull, Table.mk (Pager.mk [] 0 (fun _ => none)) 1400)) ∧
    (∃ (t' : Table) (hp : (Table.db_open []).num_rows / ROWS_PER_PAGE < TABLE_MAX_PAGES),
      execute_insert (Table.db_open []) { id := 5, username := [97], email := [98] } =
        .ok (.Success, t') ∧
      t'.num_rows = (Table.db_open []).num_rows + 1 ∧
      t'.pager.file = (Table.db_open []).pager.file ∧
      t'.pager.pages ⟨(Table.db_open []).num_rows / ROWS_PER_PAGE, hp⟩ =
        some (listWrite ((Table.db_open []).pageView
            ((Table.db_open []).num_rows / ROWS_PER_PAGE))
          ((Table.db_open []).num_rows % ROWS_PER_PAGE * ROW_SIZE)
          (serBytes { id := 5, username := [97], email := [98] })) ∧
      slice (listWrite ((Table.db_open []).pageView
            ((Table.db_open []).num_rows / ROWS_PER_PAGE))
          ((Table.db_open []).num_rows % ROWS_PER_PAGE * ROW_SIZE)
          (serBytes { id := 5, username := [97], email := [98] }))
        ((Table.db_open []).num_rows % ROWS_PER_PAGE * ROW_SIZE)
        (serBytes { id := 5, username := [97], email := [98] }).length =
        serBytes { id := 5, username := [97], email := [98] } ∧
      (serBytes { id := 5, username := [97], email := [98] }).length = ROW_SIZE ∧
      (∀ j, j ≠ (⟨(Table.db_open []).num_rows / ROWS_PER_PAGE, hp⟩ :
          Fin TABLE_MAX_PAGES) →
        t'.pager.pages j = (Table.db_open []).pager.pages j)) ∧
    (∃ t1 : Table,
      insertAll (Table.db_open [])
          (List.replicate 1400 { id := 1, username := [], email := [] }) =
        .ok (List.replicate 1400 .Success, t1) ∧
      t1.num_rows = 1400 ∧
      execute_insert t1 { id := 1, username := [], email := [] } =
        .ok (.TableFull, t1)) :=
  ⟨claim_C3_insert_capacity.1 (Table.mk (Pager.mk [] 0 (fun _ => none)) 1400)
      { id := 5, username := [97], email := [98] } (by decide),
   claim_C3_insert_capacity.2.1 (Table.db_open [])
      { id := 5, username := [97], email := [98] }
      (fun j pg h => Option.noConfusion h) (by decide) (by decide),
   claim_C3_insert_capacity.2.2
      (List.replicate 1400 { id := 1, username := [], email := [] })
      (List.length_replicate ..)
      (fun x hx => by rw [List.eq_of_mem_replicate hx]; decide)
      { id := 1, username := [], email := [] }⟩

theorem loadPage_getD (file : List Nat) (n k : Nat) (hk : k < PAGE_SIZE) :
    (loadPage file n).getD k 0 = file.getD (n * PAGE_SIZE + k) 0 := by
  rw [loadPage]
  by_cases h : k < (slice file (n * PAGE_SIZE) PAGE_SIZE).length
  · rw [List.getD_append _ _ _ _ h, slice]
    simp [List.getD_eq_getElem?_getD, List.getElem?_take, List.getElem?_drop, hk]
  · rw [List.getD_append_right _ _ _ _ (Nat.le_of_not_lt h)]
    have hs : (slice file (n * PAGE_SIZE) PAGE_SIZE).length =
        min PAGE_SIZE (file.length - n * PAGE_SIZE) := by
      rw [slice, List.length_take, List.length_drop]
    have hfile : file.length ≤ n * PAGE_SIZE + k := by
      rw [hs] at h
      omega
    have hL : (List.replicate (PAGE_SIZE - (slice file (n * PAGE_SIZE) PAGE_SIZE).length)
        (0 : Nat)).getD (k - (slice file (n * PAGE_SIZE) PAGE_SIZE).length) 0 = 0 := by
      simp [List.getD_eq_getElem?_getD, List.getElem?_replicate]
      split <;> rfl
    rw [hL, List.getD_eq_getElem?_getD, List.getElem?_eq_none hfile]
    rfl

theorem pageLoad_getD {p : Pager} (hfl : p.file_length = p.file.length) (n k : Nat)
    (hk : k < PAGE_SIZE) :
    (p.pageLoad n).getD k 0 = p.file.getD (n * PAGE_SIZE + k) 0 := by
  rw [Pager.pageLoad]
  by_cases h : n ≤ p.file_length / PAGE_SIZE +
      (if p.file_length % PAGE_SIZE ≠ 0 then 1 else 0)
  · rw [if_pos h]
    exact loadPage_getD p.file n k hk
  · rw [if_neg h]
    have hbig : p.file.length ≤ n * PAGE_SIZE + k := by
      rw [← hfl]
      rw [PAGE_SIZE_eq] at h ⊢
      by_cases hm : p.file_length % 4096 ≠ 0
      · rw [if_pos hm] at h
        omega
      · rw [if_neg hm] at h
        omega
    have hL : (List.replicate PAGE_SIZE (0 : Nat)).getD k 0 = 0 := by
      simp [List.getD_eq_getElem?_getD, List.getElem?_replicate]
      split <;> rfl
    rw [hL, List.getD_eq_getElem?_getD, List.getElem?_eq_none hbig]
    rfl

/-! ### Claim C1 -/

/-- C1 (amended: the bound `N < 1400` must shrink to `N ≤ 195`; at `N = 196`
the claim fails, see the counterexample): inserting `N ≤ 195` in-capacity
rows into a freshly opened empty table, closing it, reopening the written
backing file and running select yields exactly the `N` inserted rows, in
insertion order, each with its id and its username and email zero-padded to
the field widths (the codec does not trim padding on decode). -/
theorem claim_C1_roundtrip {rows : List Row} (hv : ∀ x ∈ rows, ValidRow x)
    (h195 : rows.length ≤ 195) :
    roundTrip rows = .ok (rows.map (fun r => some (decodedRow r))) :=
  roundTrip_output hv h195

theorem claim_C1_roundtrip_witness :
    roundTrip [{ id := 7, username := [104, 105], email := [98, 99] }] =
      .ok [some (decodedRow { id := 7, username := [104, 105], email := [98, 99] })] :=
  claim_C1_roundtrip
    (fun x hx => by
      rw [List.mem_singleton] at hx
      rw [hx]
      exact ⟨by decide, by decide, rfl, by decide, rfl⟩)
    (by decide)

/-- C1 fails at `N = 196`: the 196 inserted rows occupy 14 exactly-full
pages, `db_close` writes `14 * 4096 = 57344` bytes (each page carries 22
slack bytes beyond its `14 * 291` row bytes), and reopening computes
`num_rows = 57344 / 291 = 197`, so the reopened scan returns 197 entries —
not the 196 inserted rows. -/
theorem claim_C1_counterexample :
    rows196.length = 196 ∧ (∀ x ∈ rows196, ValidRow x) ∧
      roundTripLen rows196 = .ok 197 ∧
      roundTrip rows196 ≠ .ok (rows196.map (fun r => some (decodedRow r))) := by
  refine ⟨List.length_replicate .., ?_, roundTripLen_196, ?_⟩
  · intro x hx
    rw [List.eq_of_mem_replicate hx]
    exact ⟨by decide, by decide, rfl, by decide, rfl⟩
  · intro hcontra
    have h := roundTripLen_196
    rw [roundTripLen, hcontra] at h
    dsimp only [Except.map] at h
    rw [List.length_map, show rows196.length = 196 from List.length_replicate ..] at h
    exact absurd (Except.ok.inj h) (by decide)

theorem slice_length (l : List Nat) (off len : Nat) :
    (slice l off len).length = min len (l.length - off) := by
  rw [slice, List.length_take, List.length_drop]

theorem writeFileAt_prefix_length (f : List Nat) (off : Nat) :
    (f.take off ++ List.replicate (off - f.length) (0 : Nat)).length = off := by
  rw [List.length_append, List.length_take, List.length_replicate]
  omega

/-- A byte strictly outside the written range `[off, off + data.length)` is
unchanged by `writeFileAt` (gap-filling zeros land only beyond the old end of
the file, where `getD` already yields the default 0). -/
theorem writeFileAt_getD_out {f data : List Nat} {off q : Nat}
    (h : q < off ∨ off + data.length ≤ q) :
    (writeFileAt f off data).getD q 0 = f.getD q 0 := by
  rw [writeFileAt, List.append_assoc]
  rcases h with h | h
  · rw [List.getD_append _ _ _ _ (by rw [writeFileAt_prefix_length]; exact h)]
    by_cases hq : q < f.length
    · rw [List.getD_append _ _ _ _ (by rw [List.length_take]; omega)]
      rw [List.getD_eq_getElem?_getD, List.getD_eq_getElem?_getD, List.getElem?_take,
        if_pos h]
    · rw [List.getD_append_right _ _ _ _ (by rw [List.length_take]; omega)]
      have h1 : (List.replicate (off - f.length) (0 : Nat)).getD
          (q - (f.take off).length) 0 = 0 := by
        simp [List.getD_eq_getElem?_getD, List.getElem?_replicate]
        split <;> rfl
      rw [h1, List.getD_eq_getElem?_getD, List.getElem?_eq_none (by omega)]
      rfl
  · rw [List.getD_append_right _ _ _ _ (by rw [writeFileAt_prefix_length]; omega),
      writeFileAt_prefix_length,
      List.getD_append_right _ _ _ _ (by omega),
      List.getD_eq_getElem?_getD, List.getD_eq_getElem?_getD, List.getElem?_drop,
      show off + data.length + (q - off - data.length) = q from by omega]

/-- `writeFileAt` puts exactly `data` at offset `off` of the resulting
file. -/
theorem slice_writeFileAt_self (f data : List Nat) (off : Nat) :
    slice (writeFileAt f off data) off data.length = data := by
  have h := @slice_append_right (f.take off ++ List.replicate (off - f.length) 0)
    (data ++ f.drop (off + data.length)) data.length
  rw [writeFileAt_prefix_length, List.take_left] at h
  rw [writeFileAt, List.append_assoc, h]

/-- Two files agreeing byte-for-byte on an in-range window have the same
slice there. -/
theorem slice_eq_of_getD {f g : List Nat} {off len : Nat}
    (hf : off + len ≤ f.length) (hg : off + len ≤ g.length)
    (h : ∀ q, off ≤ q → q < off + len → f.getD q 0 = g.getD q 0) :
    slice f off len = slice g off len := by
  apply List.ext_getElem
  · rw [slice_length, slice_length]
    omega
  · intro i h1 h2
    rw [slice_length] at h1 h2
    simp only [slice, List.getElem_take, List.getElem_drop]
    have hgd := h (off + i) (by omega) (by omega)
    rw [List.getD_eq_getElem?_getD, List.getD_eq_getElem?_getD,
      List.getElem?_eq_getElem (by omega : off + i < f.length),
      List.getElem?_eq_getElem (by omega : off + i < g.length)] at hgd
    exact hgd

/-- From a full-page slice equality, the file must reach the end of that
page. -/
theorem length_of_slice_page {f pg : List Nat} {m : Nat}
    (hpg : pg.length = PAGE_SIZE) (h : slice f (m * PAGE_SIZE) PAGE_SIZE = pg) :
    m * PAGE_SIZE + PAGE_SIZE ≤ f.length := by
  have hl := congrArg List.length h
  rw [slice_length, hpg] at hl
  rw [PAGE_SIZE_eq] at hl ⊢
  omega

/-- The full-page loop of `db_close` on an arbitrary pager: it completes,
keeps `file_length` and slots outside `[i, i+c)`, evicts the slots inside,
writes each resident page of `[i, i+c)` in full at offset `page * 4096`, and
changes no byte outside those written page regions. -/
theorem closeFullLoop_run : ∀ (c : Nat) (p : Pager) (i : Nat),
    i + c ≤ TABLE_MAX_PAGES → p.WF →
    ∃ p', closeFullLoop p i c = .ok p' ∧
      p'.file_length = p.file_length ∧
      p'.WF ∧
      p.file.length ≤ p'.file.length ∧
      (∀ j : Fin TABLE_MAX_PAGES, j.val < i ∨ i + c ≤ j.val → p'.pages j = p.pages j) ∧
      (∀ j : Fin TABLE_MAX_PAGES, i ≤ j.val → j.val < i + c → p'.pages j = none) ∧
      (∀ m (hm : m < TABLE_MAX_PAGES) pg, i ≤ m → m < i + c →
        p.pages ⟨m, hm⟩ = some pg →
        slice p'.file (m * PAGE_SIZE) PAGE_SIZE = pg) ∧
      (∀ q : Nat,
        (∀ m (hm : m < TABLE_MAX_PAGES), i ≤ m → m < i + c →
          p.pages ⟨m, hm⟩ ≠ none → q < m * PAGE_SIZE ∨ m * PAGE_SIZE + PAGE_SIZE ≤ q) →
        p'.file.getD q 0 = p.file.getD q 0) := by
  intro c
  induction c with
  | zero =>
    intro p i hc hwf
    exact ⟨p, rfl, rfl, hwf, le_refl _, fun j hj => rfl,
      fun j h1 h2 => absurd h2 (by omega),
      fun m hm pg h1 h2 _ => absurd h2 (by omega), fun q hq => rfl⟩
  | succ c ih =>
    intro p i hc hwf
    have hi : i < TABLE_MAX_PAGES := by rw [TABLE_MAX_PAGES_eq] at hc ⊢; omega
    rw [closeFullLoop, Pager.pageAt, dif_pos hi]
    cases hres : p.pages ⟨i, hi⟩ with
    | none =>
      dsimp only
      obtain ⟨p', hrun, hfl, hwf', hmono, hout, hevict, hcontent, hframe⟩ :=
        ih p (i + 1) (by omega) hwf
      refine ⟨p', hrun, hfl, hwf', hmono, ?_, ?_, ?_, ?_⟩
      · intro j hj
        exact hout j (by omega)
      · intro j h1 h2
        by_cases hji : j.val = i
        · have hj : j = (⟨i, hi⟩ : Fin TABLE_MAX_PAGES) := Fin.ext hji
          rw [hout j (Or.inl (by omega)), hj, hres]
        · exact hevict j (by omega) (by omega)
      · intro m hm pg h1 h2 hpg
        by_cases hmi : m = i
        · subst hmi
          have hpg' : p.pages ⟨m, hi⟩ = some pg := hpg
          cases hres.symm.trans hpg'
        · exact hcontent m hm pg (by omega) (by omega) hpg
      · intro q hq
        exact hframe q (fun m hm h1 h2 hne => hq m hm (by omega) (by omega) hne)
    | some pg =>
      dsimp only
      rw [Pager.flush, Pager.pageAt, dif_pos hi, hres]
      dsimp only
      have hpg4096 : pg.length = PAGE_SIZE := hwf ⟨i, hi⟩ pg hres
      have htake : pg.take PAGE_SIZE = pg := by
        rw [← hpg4096, List.take_length]
      rw [htake, Pager.evict]
      rw [dif_pos hi]
      have hwf1 : (Pager.mk (writeFileAt p.file (i * PAGE_SIZE) pg) p.file_length
          (Function.update p.pages ⟨i, hi⟩ none)).WF := by
        intro j pgj hj
        have hj' : Function.update p.pages ⟨i, hi⟩ none j = some pgj := hj
        by_cases hji : j = (⟨i, hi⟩ : Fin TABLE_MAX_PAGES)
        · rw [hji, Function.update_same] at hj'
          cases hj'
        · rw [Function.update_noteq hji] at hj'
          exact hwf j pgj hj' 
      obtain ⟨p', hrun, hfl, hwf', hmono, hout, hevict, hcontent, hframe⟩ :=
        ih (Pager.mk (writeFileAt p.file (i * PAGE_SIZE) pg) p.file_length
          (Function.update p.pages ⟨i, hi⟩ none)) (i + 1) (by omega) hwf1
      have hw4096 : i * PAGE_SIZE + PAGE_SIZE ≤
          (writeFileAt p.file (i * PAGE_SIZE) pg).length := by
        rw [writeFileAt_length, hpg4096]
        omega
      refine ⟨p', hrun, hfl, hwf', ?_, ?_, ?_, ?_, ?_⟩
      · calc p.file.length ≤ (writeFileAt p.file (i * PAGE_SIZE) pg).length := by
              rw [writeFileAt_length]
              omega
          _ ≤ p'.file.length := hmono
      · intro j hj
        have hnev : j.val ≠ i := by omega
        have hne : j ≠ (⟨i, hi⟩ : Fin TABLE_MAX_PAGES) :=
          fun hc' => hnev (congrArg Fin.val hc')
        have hout' : p'.pages j = Function.update p.pages ⟨i, hi⟩ none j :=
          hout j (by omega)
        rw [hout', Function.update_noteq hne]
      · intro j h1 h2
        by_cases hji : j.val = i
        · have hj : j = (⟨i, hi⟩ : Fin TABLE_MAX_PAGES) := Fin.ext hji
          have hout' : p'.pages j = Function.update p.pages ⟨i, hi⟩ none j :=
            hout j (Or.inl (by omega))
          rw [hout', hj]
          exact Function.update_same ..
        · exact hevict j (by omega) (by omega)
      · intro m hm pg2 h1 h2 hpg2
        by_cases hmi : m = i
        · subst hmi
          have hpg2' : p.pages ⟨m, hi⟩ = some pg2 := hpg2
          have hpgeq : pg = pg2 := Option.some.inj (hres.symm.trans hpg2')
          subst hpgeq
          have hself : slice (writeFileAt p.file (m * PAGE_SIZE) pg)
              (m * PAGE_SIZE) PAGE_SIZE = pg := by
            have h := slice_writeFileAt_self p.file pg (m * PAGE_SIZE)
            rw [hpg4096] at h
            exact h
          rw [← hself]
          refine slice_eq_of_getD (le_trans hw4096 hmono) hw4096 ?_
          intro q hq1 hq2
          refine hframe q ?_
          intro m2 hm2 hm21 hm22 hne2
          refine Or.inl ?_
          rw [PAGE_SIZE_eq] at hq2 ⊢
          omega
        · have hpg2' : (Function.update p.pages ⟨i, hi⟩ none) ⟨m, hm⟩ = some pg2 := by
            rw [Function.update_noteq (fun hc' => hmi (congrArg Fin.val hc'))]
            exact hpg2
          exact hcontent m hm pg2 (by omega) (by omega) hpg2'
      · intro q hq
        have h1 : p'.file.getD q 0 =
            (writeFileAt p.file (i * PAGE_SIZE) pg).getD q 0 := by
          refine hframe q ?_
          intro m hm hm1 hm2 hne
          refine hq m hm (by omega) (by omega) ?_
          intro hcon
          apply hne
          show Function.update p.pages ⟨i, hi⟩ none ⟨m, hm⟩ = none
          rw [Function.update_noteq
            (fun hc' => absurd (show m = i from congrArg Fin.val hc') (by omega))]
          exact hcon
        have h2 : (writeFileAt p.file (i * PAGE_SIZE) pg).getD q 0 =
            p.file.getD q 0 := by
          refine writeFileAt_getD_out ?_
          rw [hpg4096]
          exact hq i hi (by omega) (by omega) (by rw [hres]; exact fun hcc => Option.noConfusion hcc)
        exact h1.trans h2

/-- `db_close` on an arbitrary table with at most 1400 rows: it completes,
keeps `num_rows` and `file_length`, evicts every slot, writes each resident
page below `num_rows / 14` in full (4096 bytes at offset `page * 4096`),
writes exactly `(num_rows % 14) * 291` bytes of the resident partial final
page, and changes no byte of the file outside those written regions. -/
theorem db_close_run {t : Table} (hwf : t.pager.WF) (hb : t.num_rows ≤ TABLE_MAX_ROWS) :
    ∃ t', t.db_close = .ok t' ∧ t'.num_rows = t.num_rows ∧
      t'.pager.file_length = t.pager.file_length ∧
      (∀ j, t'.pager.pages j = none) ∧
      (∀ m (hm : m < TABLE_MAX_PAGES) pg, m < t.num_rows / ROWS_PER_PAGE →
        t.pager.pages ⟨m, hm⟩ = some pg →
        slice t'.pager.file (m * PAGE_SIZE) PAGE_SIZE = pg) ∧
      (∀ (hp : t.num_rows / ROWS_PER_PAGE < TABLE_MAX_PAGES) pg,
        0 < t.num_rows % ROWS_PER_PAGE →
        t.pager.pages ⟨t.num_rows / ROWS_PER_PAGE, hp⟩ = some pg →
        slice t'.pager.file (t.num_rows / ROWS_PER_PAGE * PAGE_SIZE)
            (t.num_rows % ROWS_PER_PAGE * ROW_SIZE) =
          pg.take (t.num_rows % ROWS_PER_PAGE * ROW_SIZE)) ∧
      (∀ q : Nat,
        (∀ m (hm : m < TABLE_MAX_PAGES), m < t.num_rows / ROWS_PER_PAGE →
          t.pager.pages ⟨m, hm⟩ ≠ none →
          q < m * PAGE_SIZE ∨ m * PAGE_SIZE + PAGE_SIZE ≤ q) →
        (∀ (hp : t.num_rows / ROWS_PER_PAGE < TABLE_MAX_PAGES),
          0 < t.num_rows % ROWS_PER_PAGE →
          t.pager.pages ⟨t.num_rows / ROWS_PER_PAGE, hp⟩ ≠ none →
          q < t.num_rows / ROWS_PER_PAGE * PAGE_SIZE ∨
            t.num_rows / ROWS_PER_PAGE * PAGE_SIZE +
              t.num_rows % ROWS_PER_PAGE * ROW_SIZE ≤ q) →
        t'.pager.file.getD q 0 = t.pager.file.getD q 0) := by
  have hF100 : t.num_rows / ROWS_PER_PAGE ≤ 100 := by
    rw [TABLE_MAX_ROWS_eq] at hb
    rw [ROWS_PER_PAGE_eq]
    omega
  rw [Table.db_close]
  obtain ⟨p1, hrun, hfl, hwf1, hmono, hout, hevict, hcontent, hframe⟩ :=
    closeFullLoop_run (t.num_rows / ROWS_PER_PAGE) t.pager 0
      (by rw [TABLE_MAX_PAGES_eq]; omega) hwf
  rw [hrun]
  dsimp only
  by_cases hmod : t.num_rows % ROWS_PER_PAGE > 0
  · have hFlt : t.num_rows / ROWS_PER_PAGE < TABLE_MAX_PAGES := by
      rw [TABLE_MAX_PAGES_eq]
      rw [TABLE_MAX_ROWS_eq] at hb
      rw [ROWS_PER_PAGE_eq] at hmod ⊢
      omega
    rw [if_pos hmod, Pager.pageAt, dif_pos hFlt,
      hout ⟨t.num_rows / ROWS_PER_PAGE, hFlt⟩ (Or.inr (show 0 +
        t.num_rows / ROWS_PER_PAGE ≤ t.num_rows / ROWS_PER_PAGE by omega))]
    cases hres : t.pager.pages ⟨t.num_rows / ROWS_PER_PAGE, hFlt⟩ with
    | none =>
      dsimp only
      rw [clearLoop_all]
      refine ⟨_, rfl, rfl, hfl, fun j => rfl, ?_, ?_, ?_⟩
      · intro m hm pg h1 hpg
        exact hcontent m hm pg (by omega) (by omega) hpg
      · intro hp pg hmod2 hpg
        have hpg' : t.pager.pages ⟨t.num_rows / ROWS_PER_PAGE, hFlt⟩ = some pg := hpg
        cases hres.symm.trans hpg'
      · intro q h1q h2q
        exact hframe q (fun m hm hm1 hm2 hne => h1q m hm (by omega) hne)
    | some pg =>
      dsimp only
      rw [Pager.flush, Pager.pageAt, dif_pos hFlt,
        hout ⟨t.num_rows / ROWS_PER_PAGE, hFlt⟩ (Or.inr (show 0 +
          t.num_rows / ROWS_PER_PAGE ≤ t.num_rows / ROWS_PER_PAGE by omega)), hres]
      dsimp only
      rw [Pager.evict]
      dsimp only
      rw [dif_pos hFlt]
      rw [clearLoop_all]
      have hpg4096 : pg.length = PAGE_SIZE := hwf ⟨t.num_rows / ROWS_PER_PAGE, hFlt⟩ pg hres
      have htklen : (pg.take (t.num_rows % ROWS_PER_PAGE * ROW_SIZE)).length =
          t.num_rows % ROWS_PER_PAGE * ROW_SIZE := by
        rw [List.length_take, hpg4096, PAGE_SIZE_eq, ROW_SIZE_eq, ROWS_PER_PAGE_eq]
        omega
      refine ⟨_, rfl, rfl, hfl, fun j => rfl, ?_, ?_, ?_⟩
      · intro m hm pgm hmF hpgm
        have hm4096 : pgm.length = PAGE_SIZE := hwf ⟨m, hm⟩ pgm hpgm
        have hsl := hcontent m hm pgm (by omega) (by omega) hpgm
        have hlen := length_of_slice_page hm4096 hsl
        rw [← hsl]
        refine slice_eq_of_getD ?_ hlen ?_
        · rw [writeFileAt_length]
          omega
        · intro q hq1 hq2
          refine writeFileAt_getD_out (Or.inl ?_)
          rw [PAGE_SIZE_eq] at hq2 ⊢
          omega
      · intro hp pgF hmod2 hpgF
        have hpgF' : t.pager.pages ⟨t.num_rows / ROWS_PER_PAGE, hFlt⟩ = some pgF := hpgF
        have hpgeq : pg = pgF := Option.some.inj (hres.symm.trans hpgF')
        subst hpgeq
        have h := slice_writeFileAt_self p1.file
          (pg.take (t.num_rows % ROWS_PER_PAGE * ROW_SIZE))
          (t.num_rows / ROWS_PER_PAGE * PAGE_SIZE)
        rw [htklen] at h
        exact h
      · intro q h1q h2q
        have hA : (writeFileAt p1.file (t.num_rows / ROWS_PER_PAGE * PAGE_SIZE)
              (pg.take (t.num_rows % ROWS_PER_PAGE * ROW_SIZE))).getD q 0 =
            p1.file.getD q 0 := by
          refine writeFileAt_getD_out ?_
          rw [htklen]
          exact h2q hFlt hmod (by rw [hres]; exact fun hcc => Option.noConfusion hcc)
        rw [hA]
        exact hframe q (fun m hm hm1 hm2 hne => h1q m hm (by omega) hne)
  · rw [if_neg hmod]
    dsimp only
    rw [clearLoop_all]
    refine ⟨_, rfl, rfl, hfl, fun j => rfl, ?_, ?_, ?_⟩
    · intro m hm pg h1 hpg
      exact hcontent m hm pg (by omega) (by omega) hpg
    · intro hp pg hmod2 hpg
      omega
    · intro q h1q h2q
      exact hframe q (fun m hm hm1 hm2 hne => h1q m hm (by omega) hne)

/-! ### Claim C5 -/

/-- C5 (amended: restricted to tables with `num_rows ≤ 1400`; for
`num_rows ≥ 1401` — reachable via `db_open` of a large file — `db_close`
dies with the `pages[100]` index panic instead of completing: in the
partial-page branch when `num_rows ≤ 1413`, and already inside the
full-pages loop once `num_rows / 14` exceeds 100; see the counterexample):
`db_close` on any table with at most 1400 rows whose cache buffers are
4096-byte pages completes, keeps `num_rows` and `file_length`, and evicts
every cache slot; it writes each resident page with index below
`num_rows / 14` in full — all 4096 bytes at file offset `page * 4096` — and,
when `num_rows % 14 ≠ 0`, exactly `(num_rows % 14) * 291` bytes of the
resident partial final page at its offset, while every byte of the file
outside those flushed regions keeps its old value (every other resident
page is evicted without being written); the file written from the
fresh-insert table is `closeFile rows`, of length
`4096 * (N / 14) + 291 * (N % 14)`; in particular inserting 15 rows and
closing leaves a backing file of exactly `4096 + 291` bytes. -/
theorem claim_C5_close_flush :
    (∀ t : Table, t.pager.WF → t.num_rows ≤ TABLE_MAX_ROWS →
      ∃ t', t.db_close = .ok t' ∧ t'.num_rows = t.num_rows ∧
        t'.pager.file_length = t.pager.file_length ∧
        (∀ j, t'.pager.pages j = none) ∧
        (∀ m (hm : m < TABLE_MAX_PAGES) pg, m < t.num_rows / ROWS_PER_PAGE →
          t.pager.pages ⟨m, hm⟩ = some pg →
          slice t'.pager.file (m * PAGE_SIZE) PAGE_SIZE = pg) ∧
        (∀ (hp : t.num_rows / ROWS_PER_PAGE < TABLE_MAX_PAGES) pg,
          0 < t.num_rows % ROWS_PER_PAGE →
          t.pager.pages ⟨t.num_rows / ROWS_PER_PAGE, hp⟩ = some pg →
          slice t'.pager.file (t.num_rows / ROWS_PER_PAGE * PAGE_SIZE)
              (t.num_rows % ROWS_PER_PAGE * ROW_SIZE) =
            pg.take (t.num_rows % ROWS_PER_PAGE * ROW_SIZE)) ∧
        (∀ q : Nat,
          (∀ m (hm : m < TABLE_MAX_PAGES), m < t.num_rows / ROWS_PER_PAGE →
            t.pager.pages ⟨m, hm⟩ ≠ none →
            q < m * PAGE_SIZE ∨ m * PAGE_SIZE + PAGE_SIZE ≤ q) →
          (∀ (hp : t.num_rows / ROWS_PER_PAGE < TABLE_MAX_PAGES),
            0 < t.num_rows % ROWS_PER_PAGE →
            t.pager.pages ⟨t.num_rows / ROWS_PER_PAGE, hp⟩ ≠ none →
            q < t.num_rows / ROWS_PER_PAGE * PAGE_SIZE ∨
              t.num_rows / ROWS_PER_PAGE * PAGE_SIZE +
                t.num_rows % ROWS_PER_PAGE * ROW_SIZE ≤ q) →
          t'.pager.file.getD q 0 = t.pager.file.getD q 0)) ∧
    (∀ rows : List Row, (∀ x ∈ rows, ValidRow x) → rows.length ≤ TABLE_MAX_ROWS →
      (freshState rows).db_close =
          .ok (Table.mk (Pager.mk (closeFile rows) 0 (fun _ => none)) rows.length) ∧
        (closeFile rows).length =
          PAGE_SIZE * (rows.length / ROWS_PER_PAGE) +
            ROW_SIZE * (rows.length % ROWS_PER_PAGE)) ∧
    (∀ rows : List Row, rows.length = 15 → (∀ x ∈ rows, ValidRow x) →
      ∃ t1 t2 : Table,
        insertAll (Table.db_open []) rows = .ok (List.replicate 15 .Success, t1) ∧
        t1.db_close = .ok t2 ∧ t2.pager.file.length = 4096 + 291) := by
  refine ⟨fun t hwf hb => db_close_run hwf hb, ?_, ?_⟩
  · intro rows hv hlen
    exact ⟨db_close_fresh hv hlen, closeFile_length hv⟩
  · intro rows hl hv
    refine ⟨freshState rows, _, ?_, db_close_fresh hv (by rw [hl, TABLE_MAX_ROWS_eq]; omega), ?_⟩
    · have h := @insertAll_fresh rows (by rw [hl, TABLE_MAX_ROWS_eq]; omega) hv
      rw [hl] at h
      exact h
    · show (closeFile rows).length = 4096 + 291
      rw [closeFile_length hv, hl, PAGE_SIZE_eq, ROW_SIZE_eq, ROWS_PER_PAGE_eq]

theorem claim_C5_close_flush_witness :
    (∃ t', (Table.db_open []).db_close = .ok t' ∧
      t'.num_rows = (Table.db_open []).num_rows ∧
      t'.pager.file_length = (Table.db_open []).pager.file_length ∧
      (∀ j, t'.pager.pages j = none) ∧
      (∀ m (hm : m < TABLE_MAX_PAGES) pg,
        m < (Table.db_open []).num_rows / ROWS_PER_PAGE →
        (Table.db_open []).pager.pages ⟨m, hm⟩ = some pg →
        slice t'.pager.file (m * PAGE_SIZE) PAGE_SIZE = pg) ∧
      (∀ (hp : (Table.db_open []).num_rows / ROWS_PER_PAGE < TABLE_MAX_PAGES) pg,
        0 < (Table.db_open []).num_rows % ROWS_PER_PAGE →
        (Table.db_open []).pager.pages
            ⟨(Table.db_open []).num_rows / ROWS_PER_PAGE, hp⟩ = some pg →
        slice t'.pager.file ((Table.db_open []).num_rows / ROWS_PER_PAGE * PAGE_SIZE)
            ((Table.db_open []).num_rows % ROWS_PER_PAGE * ROW_SIZE) =
          pg.take ((Table.db_open []).num_rows % ROWS_PER_PAGE * ROW_SIZE)) ∧
      (∀ q : Nat,
        (∀ m (hm : m < TABLE_MAX_PAGES),
          m < (Table.db_open []).num_rows / ROWS_PER_PAGE →
          (Table.db_open []).pager.pages ⟨m, hm⟩ ≠ none →
          q < m * PAGE_SIZE ∨ m * PAGE_SIZE + PAGE_SIZE ≤ q) →
        (∀ (hp : (Table.db_open []).num_rows / ROWS_PER_PAGE < TABLE_MAX_PAGES),
          0 < (Table.db_open []).num_rows % ROWS_PER_PAGE →
          (Table.db_open []).pager.pages
              ⟨(Table.db_open []).num_rows / ROWS_PER_PAGE, hp⟩ ≠ none →
          q < (Table.db_open []).num_rows / ROWS_PER_PAGE * PAGE_SIZE ∨
            (Table.db_open []).num_rows / ROWS_PER_PAGE * PAGE_SIZE +
              (Table.db_open []).num_rows % ROWS_PER_PAGE * ROW_SIZE ≤ q) →
        t'.pager.file.getD q 0 = (Table.db_open []).pager.file.getD q 0)) ∧
    ((freshState [{ id := 7, username := [104], email := [101] }]).db_close =
        .ok (Table.mk (Pager.mk (closeFile [{ id := 7, username := [104], email := [101] }])
          0 (fun _ => none))
          ([{ id := 7, username := [104], email := [101] }] : List Row).length) ∧
      (closeFile [{ id := 7, username := [104], email := [101] }]).length =
        PAGE_SIZE *
            (([{ id := 7, username := [104], email := [101] }] : List Row).length /
              ROWS_PER_PAGE) +
          ROW_SIZE *
            (([{ id := 7, username := [104], email := [101] }] : List Row).length %
              ROWS_PER_PAGE)) ∧
    (∃ t1 t2 : Table,
      insertAll (Table.db_open [])
          (List.replicate 15 { id := 1, username := [], email := [] }) =
        .ok (List.replicate 15 .Success, t1) ∧
      t1.db_close = .ok t2 ∧ t2.pager.file.length = 4096 + 291) :=
  ⟨claim_C5_close_flush.1 (Table.db_open []) (fun j pg h => Option.noConfusion h)
     (by decide),
   claim_C5_close_flush.2.1 ([{ id := 7, username := [104], email := [101] }] : List Row)
     (fun x hx => by
       rw [List.mem_singleton] at hx
       rw [hx]
       exact ⟨by decide, by decide, rfl, by decide, rfl⟩)
     (by decide),
   claim_C5_close_flush.2.2 (List.replicate 15 ({ id := 1, username := [], email := [] } : Row))
     (List.length_replicate ..)
     (fun x hx => by
       rw [List.eq_of_mem_replicate hx]
       exact ⟨by decide, by decide, rfl, by decide, rfl⟩)⟩

/-- C5's universal reading fails on a reachable state: `db_open` of a
409891-byte file (the program itself writes files above 409600 bytes when
closing a table at capacity) yields `num_rows = 1401`, and `db_close` of
that table dies with the index panic on `pages[100]` in the partial-page
branch — it completes on no output state at all. -/
theorem claim_C5_counterexample :
    (Table.db_open (List.replicate 407691 0)).num_rows = 1401 ∧
    (Table.db_open (List.replicate 407691 0)).db_close = .error .panicIndex ∧
    ∀ t' : Table, (Table.db_open (List.replicate 407691 0)).db_close ≠ .ok t' := by
  refine ⟨?_, db_close_1401, ?_⟩
  · rw [db_open_num_rows, List.length_replicate, ROW_SIZE_eq]
  · intro t' hc
    rw [db_close_1401] at hc
    cases hc

/-! ### Claim C6 -/

/-- C6 (amended: the code's bound check is `page_num > TABLE_MAX_PAGES`, so
the out-of-range index 100 escapes the controlled abort and dies as an
uncontrolled index panic on the 100-slot array instead, see the
counterexample): `get_page_mut` aborts with the controlled out-of-bounds
exit for every `page_num > 100`, dies with the array index panic at
`page_num = 100`, and for every `page_num < 100` (on a cache whose resident
buffers are well-formed pages) returns a 4096-byte page buffer without
aborting. -/
theorem claim_C6_page_bound :
    (∀ (p : Pager) (n : Nat), 100 < n → p.get_page_mut n = .error .exitPageBound) ∧
    (∀ p : Pager, p.get_page_mut 100 = .error .panicIndex) ∧
    (∀ (p : Pager) (n : Nat), n < 100 → p.WF →
      ∃ pg p', p.get_page_mut n = .ok (pg, p') ∧ pg.length = PAGE_SIZE) := by
  refine ⟨fun p n h => get_page_mut_big h, fun p => get_page_mut_100 p, ?_⟩
  intro p n hn hwf
  have h : n < TABLE_MAX_PAGES := by rw [TABLE_MAX_PAGES_eq]; exact hn
  cases hres : p.pages ⟨n, h⟩ with
  | some pg =>
    exact ⟨pg, p, get_page_mut_resident h hres, hwf ⟨n, h⟩ pg hres⟩
  | none =>
    exact ⟨p.pageLoad n, _, get_page_mut_empty h hres, pageLoad_length p n⟩

theorem claim_C6_page_bound_witness :
    (Pager.pager_open []).get_page_mut 101 = .error .exitPageBound ∧
    (Pager.pager_open []).get_page_mut 100 = .error .panicIndex ∧
    ∃ pg p', (Pager.pager_open []).get_page_mut 0 = .ok (pg, p') ∧
      pg.length = PAGE_SIZE :=
  ⟨claim_C6_page_bound.1 (Pager.pager_open []) 101 (by decide),
   claim_C6_page_bound.2.1 (Pager.pager_open []),
   claim_C6_page_bound.2.2 (Pager.pager_open []) 0 (by decide)
     (fun j pg h => Option.noConfusion h)⟩

/-- C6's claimed controlled abort fails at the boundary index 100, which lies
outside the valid range `0..100` of the 100-slot cache yet passes the
`page_num > TABLE_MAX_PAGES` check: the access dies with the uncontrolled
index panic, a different fatal outcome than the controlled out-of-bounds
exit. -/
theorem claim_C6_counterexample :
    (Pager.pager_open []).get_page_mut 100 = .error .panicIndex ∧
      Fatal.panicIndex ≠ Fatal.exitPageBound :=
  ⟨get_page_mut_100 _, by decide⟩

/-! ### Claim C7 -/

/-- C7: on first access to page `n < 100` (empty slot), `get_page_mut`
installs the loaded buffer: a 4096-byte page whose byte `k` equals byte
`n * 4096 + k` of the backing file when that offset exists and zero
otherwise (so a page inside the file range is read from offset `n * 4096`
with a short final page zero-padded in its tail); a page entirely beyond the
file is all zeros; only slot `n` changes and the file is untouched; and a
resident page is returned as-is, with the pager unchanged (no further
read). -/
theorem claim_C7_page_cache :
    (∀ (p : Pager) (n : Nat) (h : n < TABLE_MAX_PAGES),
      p.pages ⟨n, h⟩ = none → p.file_length = p.file.length →
      ∃ p', p.get_page_mut n = .ok (p.pageLoad n, p') ∧
        p'.pages ⟨n, h⟩ = some (p.pageLoad n) ∧
        p'.file = p.file ∧
        (∀ j, j ≠ (⟨n, h⟩ : Fin TABLE_MAX_PAGES) → p'.pages j = p.pages j) ∧
        (p.pageLoad n).length = PAGE_SIZE ∧
        (∀ k, k < PAGE_SIZE →
          (p.pageLoad n).getD k 0 = p.file.getD (n * PAGE_SIZE + k) 0)) ∧
    (∀ (p : Pager) (n : Nat), p.file.length ≤ n * PAGE_SIZE →
      p.pageLoad n = List.replicate PAGE_SIZE 0) ∧
    (∀ (p : Pager) (n : Nat) (h : n < TABLE_MAX_PAGES) (pg : List Nat),
      p.pages ⟨n, h⟩ = some pg → p.get_page_mut n = .ok (pg, p)) := by
  refine ⟨?_, fun p n h => pageLoad_beyond h, fun p n h pg hres => get_page_mut_resident h hres⟩
  intro p n h hres hfl
  refine ⟨_, get_page_mut_empty h hres, ?_, rfl, ?_, pageLoad_length p n,
    fun k hk => pageLoad_getD hfl n k hk⟩
  · exact Function.update_same ..
  · intro j hj
    exact Function.update_noteq hj _ _

theorem claim_C7_page_cache_witness :
    (∃ p', (Pager.pager_open [7]).get_page_mut 0 =
        .ok ((Pager.pager_open [7]).pageLoad 0, p') ∧
      p'.pages ⟨0, by decide⟩ = some ((Pager.pager_open [7]).pageLoad 0) ∧
      p'.file = (Pager.pager_open [7]).file ∧
      (∀ j, j ≠ (⟨0, by decide⟩ : Fin TABLE_MAX_PAGES) →
        p'.pages j = (Pager.pager_open [7]).pages j) ∧
      ((Pager.pager_open [7]).pageLoad 0).length = PAGE_SIZE ∧
      (∀ k, k < PAGE_SIZE → ((Pager.pager_open [7]).pageLoad 0).getD k 0 =
        (Pager.pager_open [7]).file.getD (0 * PAGE_SIZE + k) 0)) ∧
    (Pager.pager_open [7]).pageLoad 1 = List.replicate PAGE_SIZE 0 ∧
    (Pager.mk [] 0 (fun _ => some [42])).get_page_mut 0 =
      .ok ([42], Pager.mk [] 0 (fun _ => some [42])) :=
  ⟨(claim_C7_page_cache.1 (Pager.pager_open [7]) 0 (by decide) rfl rfl),
   claim_C7_page_cache.2.1 (Pager.pager_open [7]) 1 (by decide),
   claim_C7_page_cache.2.2 (Pager.mk [] 0 (fun _ => some [42])) 0 (by decide) [42] rfl⟩

/-! ### Claim C9 -/

/-- C9 (amended: restricted to tables with `num_rows ≤ 1400`; a reopened
table can carry more rows, on which the scan reaches page 100 and dies,
see the counterexample): `execute_select` on a table with at most 1400 rows
returns `Success`, visiting rows `0, 1, …, num_rows - 1` in exactly that
order and yielding, per slot, the decode of its 291 bytes — `some row` when
it decodes, `none` (the per-row failure notice) when it does not; a decode
failure never aborts the scan or changes the operation's result. -/
theorem claim_C9_select_scan (t : Table) (hb : t.num_rows ≤ TABLE_MAX_ROWS) :
    ∃ t', execute_select t =
      .ok (.Success,
        (List.range t.num_rows).map (fun k => Row.deserialize_row (t.rowBytes k)), t') := by
  obtain ⟨t', h, -, -, -, -⟩ := execute_select_run hb
  exact ⟨t', h⟩

theorem claim_C9_select_scan_witness :
    ∃ t', execute_select (Table.db_open []) =
      .ok (.Success,
        (List.range (Table.db_open []).num_rows).map
          (fun k => Row.deserialize_row ((Table.db_open []).rowBytes k)), t') :=
  claim_C9_select_scan (Table.db_open []) (by decide)

/-- C9's "always returns Success" fails on a reachable state: closing a
table at the 1400-row capacity writes a 409600-byte file, and `db_open` of
a file of that length yields `num_rows = 409600 / 291 = 1407`; the scan
then visits row 1400, whose page index `1400 / 14 = 100` is outside the
cache, and `execute_select` dies with a fatal error instead of returning
`Success`. -/
theorem claim_C9_counterexample :
    (closeFile (List.replicate 1400 { id := 1, username := [], email := [] })).length =
        409600 ∧
    (Table.db_open (List.replicate 409600 0)).num_rows = 1407 ∧
    isOkE (execute_select (Table.db_open (List.replicate 409600 0))) = false := by
  have hnum : (Table.db_open (List.replicate 409600 0)).num_rows = 1407 := by
    rw [db_open_num_rows, List.length_replicate, ROW_SIZE_eq]
  refine ⟨?_, hnum, ?_⟩
  · rw [closeFile_length (fun x hx => by
        rw [List.eq_of_mem_replicate hx]
        exact ⟨by decide, by decide, rfl, by decide, rfl⟩),
      List.length_replicate, PAGE_SIZE_eq, ROW_SIZE_eq, ROWS_PER_PAGE_eq]
  · obtain ⟨e, he⟩ := selectLoop_err 1407 (Table.db_open (List.replicate 409600 0)) 0
      ⟨1400, by omega, by rw [ROWS_PER_PAGE_eq]⟩
    rw [execute_select, hnum, he]
    rfl

/-! ### Claim C10 -/

/-- C10: a completed `execute_select` never modifies the logical table
state: `num_rows` and the backing file are unchanged, every page buffer that
was resident before still holds exactly its old bytes, and any slot that
changed at all went from empty to resident with the loaded page content —
select never writes into a page buffer. -/
theorem claim_C10_select_frame {t : Table} {res : ExecuteResult}
    {out : List (Option Row)} {t' : Table}
    (h : execute_select t = .ok (res, out, t')) :
    t'.num_rows = t.num_rows ∧ t'.pager.file = t.pager.file ∧
    (∀ j pg, t.pager.pages j = some pg → t'.pager.pages j = some pg) ∧
    (∀ j, t'.pager.pages j = t.pager.pages j ∨
      (t.pager.pages j = none ∧ t'.pager.pages j = some (t.pageView j.val))) := by
  obtain ⟨-, hnum, hfile, -, hpages, -⟩ := execute_select_ok h
  refine ⟨hnum, hfile, ?_, hpages⟩
  intro j pg hres
  rcases hpages j with heq | ⟨hnone, -⟩
  · rw [heq, hres]
  · rw [hres] at hnone
    cases hnone

theorem claim_C10_select_frame_witness :
    (Table.db_open []).num_rows = (Table.db_open []).num_rows ∧
    (Table.db_open []).pager.file = (Table.db_open []).pager.file ∧
    (∀ j pg, (Table.db_open []).pager.pages j = some pg →
      (Table.db_open []).pager.pages j = some pg) ∧
    (∀ j, (Table.db_open []).pager.pages j = (Table.db_open []).pager.pages j ∨
      ((Table.db_open []).pager.pages j = none ∧
        (Table.db_open []).pager.pages j = some ((Table.db_open []).pageView j.val))) :=
  @claim_C10_select_frame (Table.db_open []) .Success [] (Table.db_open []) rfl

end RustLite
